import Mathlib

/-!
# Verification of the storage-engine core (cmudb)

A shallow embedding, in Lean 4, of the core components of the single-node
storage engine: the tuple-level lock manager with wait-die deadlock
prevention, the transaction manager's commit path, the LRU replacer, the
log manager's record serialization together with recovery's
deserialization and undo pass, and the B+Tree index pages and their
structural operations.

Machine integers are modelled as `Int`/`Nat`; byte buffers as `List Nat`
(each element a byte value); the C++ `std::unordered_map`s as association
lists; `std::set<txn_id_t>` as `Finset Nat`.  Blocking on a condition
variable is modelled by returning a dedicated `wait` outcome at the point
the source calls `cv->wait`, with the post-wakeup continuation embedded as
a separate `Resume` function guarded by the wait predicate.
-/

namespace cmudb

/-! ## Association-list maps

The C++ code keys its tables with `std::unordered_map`.  We model a map as
an association list with unique keys maintained by construction:
`aset` replaces the first binding (or appends), `aerase` drops every
binding of the key. -/

def alookup {κ α : Type} [DecidableEq κ] : List (κ × α) → κ → Option α
  | [], _ => none
  | (k, v) :: rest, key => if k = key then some v else alookup rest key

def aset {κ α : Type} [DecidableEq κ] : List (κ × α) → κ → α → List (κ × α)
  | [], key, val => [(key, val)]
  | (k, v) :: rest, key, val =>
      if k = key then (key, val) :: rest else (k, v) :: aset rest key val

def aerase {κ α : Type} [DecidableEq κ] (l : List (κ × α)) (key : κ) : List (κ × α) :=
  l.filter (fun e => e.1 ≠ key)

theorem alookup_aset {κ α : Type} [DecidableEq κ] (l : List (κ × α)) (k x : κ) (v : α) :
    alookup (aset l k v) x = if k = x then some v else alookup l x := by
  induction l with
  | nil => by_cases h : k = x <;> simp [aset, alookup, h]
  | cons e rest ih =>
      obtain ⟨a, b⟩ := e
      by_cases hak : a = k
      · by_cases hx : k = x <;> simp [aset, alookup, hak, hx]
      · simp only [aset, if_neg hak, alookup]
        by_cases hax : a = x
        · have : ¬ k = x := fun h => hak (hax ▸ h ▸ rfl)
          simp [alookup, hax, this]
        · simp [alookup, hax, ih]

theorem alookup_aerase {κ α : Type} [DecidableEq κ] (l : List (κ × α)) (k x : κ) :
    alookup (aerase l k) x = if k = x then none else alookup l x := by
  induction l with
  | nil => simp [aerase, alookup]
  | cons e rest ih =>
      obtain ⟨a, b⟩ := e
      by_cases hak : a = k
      · subst hak
        by_cases hx : a = x
        · subst hx; simpa [aerase, alookup] using ih
        · simpa [aerase, alookup, hx] using ih
      · by_cases hax : a = x
        · subst hax
          have : ¬ k = a := fun h => hak h.symm
          simp [aerase, alookup, hak, this]
        · simpa [aerase, alookup, hak, hax] using ih

theorem aset_self {κ α : Type} [DecidableEq κ] (l : List (κ × α)) (k : κ) (v : α)
    (h : alookup l k = some v) : aset l k v = l := by
  induction l with
  | nil => simp [alookup] at h
  | cons e rest ih =>
      obtain ⟨a, b⟩ := e
      by_cases hak : a = k
      · subst hak
        have hb : b = v := by simpa [alookup] using h
        simp [aset, hb]
      · simp only [alookup, if_neg hak] at h
        simp [aset, hak, ih h]

/-! ## Core identifiers (common/rid.h, common/config.h) -/

/-- Row identifier `(page_id, slot_number)`. -/
structure RID where
  pageId : Int
  slot : Int
deriving DecidableEq, Repr

abbrev PageId := Int

/-- `INVALID_PAGE_ID = -1`. -/
def INVALID_PAGE_ID : PageId := -1

/-- `INVALID_LSN = -1`. -/
def INVALID_LSN : Int := -1

/-! ## Lock manager (concurrency/lock_manager.h, lock_manager.cpp)

`LockManager` keys a `lock_table_` by RID; each value is a `GrantedTxns`:
the lock type together with the `std::set` of transaction ids holding it.
`*granted_set_.begin()` on a `std::set` is its least element, modelled by
`Finset.min`. -/

inductive TransactionState where
  | GROWING
  | SHRINKING
  | COMMITTED
  | ABORTED
deriving DecidableEq, Repr

inductive LockType where
  | SHARED
  | EXCLUSIVE
deriving DecidableEq, Repr

structure GrantedTxns where
  lockType : LockType
  granted_set : Finset Nat
deriving DecidableEq

/-- `*granted_set_.begin()`: the smallest granted txn id (the code always
asserts the set non-empty before dereferencing). -/
def GrantedTxns.minHolder (g : GrantedTxns) : Nat :=
  g.granted_set.min.untop' 0

/-- The per-transaction bookkeeping the lock manager touches
(concurrency/transaction.h, modelled as far as the lock code uses it). -/
structure Transaction where
  txnId : Nat
  state : TransactionState
  sharedLockSet : Finset RID
  exclusiveLockSet : Finset RID
deriving DecidableEq

abbrev LockTable := List (RID × GrantedTxns)

/-- Outcome of a lock call: either the call returns (`ret ok txn table`),
or it reaches `cv->wait` (`wait txn table`, carrying the state as mutated
before blocking). -/
inductive LockResult where
  | ret (ok : Bool) (txn : Transaction) (table : LockTable)
  | wait (txn : Transaction) (table : LockTable)
deriving DecidableEq

namespace LockManager

/-- `LockManager::TxnStateValidForLock`: any state other than GROWING
aborts the transaction. -/
def TxnStateValidForLock (txn : Transaction) : Bool × Transaction :=
  if txn.state ≠ TransactionState.GROWING then
    (false, { txn with state := TransactionState.ABORTED })
  else
    (true, txn)

/-- `LockManager::LockShared` up to the point it would block. -/
def LockShared (table : LockTable) (txn : Transaction) (rid : RID) : LockResult :=
  match TxnStateValidForLock txn with
  | (false, txn₁) => .ret false txn₁ table
  | (true, txn₁) =>
    match alookup table rid with
    | some g =>
      if g.lockType = LockType.EXCLUSIVE then
        -- tuple locked in exclusive mode, txn is younger (or equal), abort
        if g.minHolder ≤ txn₁.txnId then
          .ret false { txn₁ with state := TransactionState.ABORTED } table
        else
          -- tuple locked in exclusive mode, txn is older, wait
          .wait txn₁ table
      else
        -- tuple is locked in shared mode: join the granted set
        .ret true
          { txn₁ with sharedLockSet := insert rid txn₁.sharedLockSet }
          (aset table rid { g with granted_set := insert txn₁.txnId g.granted_set })
    | none =>
        -- tuple is not locked by other txn: install a SHARED entry
        .ret true
          { txn₁ with sharedLockSet := insert rid txn₁.sharedLockSet }
          (aset table rid ⟨LockType.SHARED, {txn₁.txnId}⟩)

/-- The continuation of `LockManager::LockShared` after the condition
variable wakes with its predicate true (entry absent, or shared).
Returns `none` only where the source would hit `assert(false)`. -/
def LockSharedResume (table : LockTable) (txn : Transaction) (rid : RID) :
    Option (Bool × Transaction × LockTable) :=
  match alookup table rid with
  | none =>
      some (true,
        { txn with sharedLockSet := insert rid txn.sharedLockSet },
        aset table rid ⟨LockType.SHARED, {txn.txnId}⟩)
  | some g =>
      if g.lockType = LockType.SHARED then
        some (true,
          { txn with sharedLockSet := insert rid txn.sharedLockSet },
          aset table rid { g with granted_set := insert txn.txnId g.granted_set })
      else
        none

/-- `LockManager::LockExclusive` up to the point it would block. -/
def LockExclusive (table : LockTable) (txn : Transaction) (rid : RID) : LockResult :=
  match TxnStateValidForLock txn with
  | (false, txn₁) => .ret false txn₁ table
  | (true, txn₁) =>
    match alookup table rid with
    | none =>
        -- tuple is not locked by other txn: install an EXCLUSIVE entry
        .ret true
          { txn₁ with exclusiveLockSet := insert rid txn₁.exclusiveLockSet }
          (aset table rid ⟨LockType.EXCLUSIVE, {txn₁.txnId}⟩)
    | some g =>
        -- tuple locked, txn is younger (or equal), abort
        if g.minHolder ≤ txn₁.txnId then
          .ret false { txn₁ with state := TransactionState.ABORTED } table
        else
          -- tuple locked, txn is older, wait
          .wait txn₁ table

/-- The continuation of `LockManager::LockExclusive` after the wait
predicate (entry absent) holds. -/
def LockExclusiveResume (table : LockTable) (txn : Transaction) (rid : RID) :
    Bool × Transaction × LockTable :=
  (true,
   { txn with exclusiveLockSet := insert rid txn.exclusiveLockSet },
   aset table rid ⟨LockType.EXCLUSIVE, {txn.txnId}⟩)

/-- `LockManager::LockUpgrade` up to the point it would block. -/
def LockUpgrade (table : LockTable) (txn : Transaction) (rid : RID) : LockResult :=
  match TxnStateValidForLock txn with
  | (false, txn₁) => .ret false txn₁ table
  | (true, txn₁) =>
    match alookup table rid with
    | none =>
        -- lock upgrade requires tuple to be locked before
        .ret false { txn₁ with state := TransactionState.ABORTED } table
    | some g =>
        if g.lockType ≠ LockType.SHARED ∨ txn₁.txnId ∉ g.granted_set then
          -- lock upgrade requires tuple to be locked in shared mode
          .ret false { txn₁ with state := TransactionState.ABORTED } table
        else
          -- remove this txn from the lock table to release shared lock
          let txn₂ := { txn₁ with sharedLockSet := txn₁.sharedLockSet.erase rid }
          let erased := g.granted_set.erase txn₂.txnId
          if erased = ∅ then
            -- no other txn holds the lock: upgrade to exclusive immediately
            .ret true
              { txn₂ with exclusiveLockSet := insert rid txn₂.exclusiveLockSet }
              (aset table rid ⟨LockType.EXCLUSIVE, {txn₂.txnId}⟩)
          else
            -- the in-place set erase is visible through the shared_ptr
            let table₁ := aset table rid { g with granted_set := erased }
            if (⟨g.lockType, erased⟩ : GrantedTxns).minHolder ≤ txn₂.txnId then
              .ret false { txn₂ with state := TransactionState.ABORTED } table₁
            else
              .wait txn₂ table₁

/-- The continuation of `LockManager::LockUpgrade` after the wait
predicate (entry absent) holds. -/
def LockUpgradeResume (table : LockTable) (txn : Transaction) (rid : RID) :
    Bool × Transaction × LockTable :=
  (true,
   { txn with exclusiveLockSet := insert rid txn.exclusiveLockSet },
   aset table rid ⟨LockType.EXCLUSIVE, {txn.txnId}⟩)

/-- `LockManager::Unlock`. -/
def Unlock (strict2PL : Bool) (table : LockTable) (txn : Transaction) (rid : RID) :
    Bool × Transaction × LockTable :=
  -- strict 2PL can only be unlocked after committed or aborted
  if strict2PL ∧ ¬(txn.state = TransactionState.COMMITTED
      ∨ txn.state = TransactionState.ABORTED) then
    (false, { txn with state := TransactionState.ABORTED }, table)
  else
    match alookup table rid with
    | none =>
        -- tuple has not been locked
        (false, { txn with state := TransactionState.ABORTED }, table)
    | some g =>
        if txn.txnId ∉ g.granted_set then
          -- erase from the granted set returned 0
          (false, { txn with state := TransactionState.ABORTED }, table)
        else
          let erased := g.granted_set.erase txn.txnId
          -- update txn state to SHRINKING if current state is GROWING
          let txn₁ :=
            if ¬strict2PL ∧ txn.state = TransactionState.GROWING then
              { txn with state := TransactionState.SHRINKING }
            else txn
          -- remove tuple from txn lock sets
          let txn₂ :=
            if g.lockType = LockType.SHARED then
              { txn₁ with sharedLockSet := txn₁.sharedLockSet.erase rid }
            else
              { txn₁ with exclusiveLockSet := txn₁.exclusiveLockSet.erase rid }
          if erased = ∅ then
            -- no txn is holding this tuple: erase the lock table entry
            (true, txn₂, aerase table rid)
          else
            (true, txn₂, aset table rid { g with granted_set := erased })

end LockManager

/-! ## Transaction manager commit (concurrency/transaction_manager.cpp)

`TransactionManager::Commit` sets the state to COMMITTED, drains the write
set (applying deferred deletes), and — when logging is enabled — appends a
COMMIT record (whose LSN is `next_lsn_++`) and loops `WaitForLogFlush`
until `persistent_lsn ≥` that LSN; only after that loop does it release
the transaction's locks.  Each `WaitForLogFlush` blocks until one flush
completes, after which `persistent_lsn` holds the LSN recorded by that
flush; the sequence of those observed values is the `flushes` argument.
The events emitted while committing are recorded in order. -/

inductive WType where
  | INSERT
  | DELETE
  | UPDATE
deriving DecidableEq, Repr

structure WriteItem where
  wtype : WType
  rid : RID
deriving DecidableEq, Repr

inductive CommitEvent where
  | waitFlush (persistentLsn : Int)
  | releaseLock (rid : RID)
deriving DecidableEq, Repr

/-- `while (lsn > log_manager_->GetPersistentLSN()) WaitForLogFlush();`
Returns `none` if the flushes run out before the loop exits (the call
would block forever), otherwise the final persistent LSN together with
the wait events in order. -/
def commitWaitLoop (lsn : Int) : List Int → Int → Option (Int × List CommitEvent)
  | flushes, plsn =>
    if lsn > plsn then
      match flushes with
      | [] => none
      | p :: rest =>
          match commitWaitLoop lsn rest p with
          | none => none
          | some (q, evs) => some (q, CommitEvent.waitFlush p :: evs)
    else
      some (plsn, [])

structure CommitOutcome where
  txn : Transaction
  table : LockTable
  commitLsn : Int
  nextLsn : Int
  persistentLsn : Int
  appliedDeletes : List RID
  events : List CommitEvent
deriving DecidableEq

/-- Release every lock in `lockRids` via `LockManager::Unlock` (the return
value of each unlock call is discarded, as in the source). -/
def releaseAllLocks (strict2PL : Bool) : List RID → LockTable → Transaction →
    LockTable × Transaction
  | [], table, txn => (table, txn)
  | rid :: rest, table, txn =>
      let r := LockManager.Unlock strict2PL table txn rid
      releaseAllLocks strict2PL rest r.2.2 r.2.1

/-- `TransactionManager::Commit`.  `lockRids` is the enumeration of
`shared_lock_set ∪ exclusive_lock_set` (iteration order of the
`std::unordered_set` is unspecified).  Returns `none` when the commit
would block forever waiting for the log flush. -/
def TransactionManager.Commit (strict2PL enableLogging : Bool)
    (flushes : List Int) (lockRids : List RID)
    (table : LockTable) (txn : Transaction) (writeSet : List WriteItem)
    (nextLsn persistentLsn : Int) : Option CommitOutcome :=
  let txn₁ := { txn with state := TransactionState.COMMITTED }
  -- truly delete before commit: pop items from the back, applying deletes
  let deletes := (writeSet.reverse.filter (fun w => w.wtype = WType.DELETE)).map (·.rid)
  if enableLogging then
    let lsn := nextLsn  -- AppendLogRecord stamps record.lsn = next_lsn_++
    match commitWaitLoop lsn flushes persistentLsn with
    | none => none
    | some (plsn, waitEvs) =>
        let rel := releaseAllLocks strict2PL lockRids table txn₁
        some ⟨rel.2, rel.1, lsn, nextLsn + 1, plsn, deletes,
              waitEvs ++ lockRids.map CommitEvent.releaseLock⟩
  else
    let rel := releaseAllLocks strict2PL lockRids table txn₁
    some ⟨rel.2, rel.1, INVALID_LSN, nextLsn, persistentLsn, deletes,
          lockRids.map CommitEvent.releaseLock⟩

/-! ## LRU replacer (buffer/lru_replacer.cpp)

`LRUReplacer` keeps `access_list` (a `std::list`, front = most recently
used) and `value_map` mapping a value to its `std::list` iterator.  List
iterators are modelled by giving every list node a unique id: the list is
`List (id × value)` and the map stores ids.  `std::list::erase` on an
iterator removes exactly the node with that id; erasing an id that is no
longer in the list is undefined behaviour in C++, modelled here as
removing nothing.  Crucially, `std::unordered_map::emplace` does NOT
overwrite an existing key, which the model reproduces. -/

structure LRUReplacer where
  nextId : Nat
  accessList : List (Nat × Int)
  valueMap : List (Int × Nat)
deriving DecidableEq, Repr

def LRUReplacer.empty : LRUReplacer := ⟨0, [], []⟩

/-- `LRUReplacer::Insert`. -/
def LRUReplacer.Insert (r : LRUReplacer) (value : Int) : LRUReplacer :=
  -- if value already exists, first erase it from the list then re-insert
  let list₁ :=
    match alookup r.valueMap value with
    | some it => r.accessList.filter (fun e => e.1 ≠ it)
    | none => r.accessList
  let list₂ := (r.nextId, value) :: list₁
  -- value_map.emplace(value, access_list.begin()): no-op if key present
  let map₂ :=
    match alookup r.valueMap value with
    | some _ => r.valueMap
    | none => (value, r.nextId) :: r.valueMap
  ⟨r.nextId + 1, list₂, map₂⟩

/-- `LRUReplacer::Erase`. -/
def LRUReplacer.Erase (r : LRUReplacer) (value : Int) : Bool × LRUReplacer :=
  match alookup r.valueMap value with
  | none => (false, r)
  | some it =>
      (true, { r with accessList := r.accessList.filter (fun e => e.1 ≠ it),
                      valueMap := aerase r.valueMap value })

/-- `LRUReplacer::Victim`. -/
def LRUReplacer.Victim (r : LRUReplacer) : Option Int × LRUReplacer :=
  match r.accessList.getLast? with
  | none => (none, r)
  | some (_, v) =>
      (some v, { r with accessList := r.accessList.dropLast,
                        valueMap := aerase r.valueMap v })

/-! ## Log records and their wire format
(logging/log_record.h modelled from the spec, logging/log_manager.cpp,
logging/log_recovery.cpp)

All header fields are 4-byte little-endian two's-complement integers:
recovery's `DeserializeLogRecord` (in the sources) reads `size` at offset
0, `lsn` at 4, `txn_id` at 8, `prev_lsn` at 12 and the type at 16, for a
20-byte header, which pins down the struct layout that
`AppendLogRecord` copies byte-for-byte.  A byte is a `Nat` below 256. -/

/-- Serialize a natural to `n` little-endian bytes. -/
def natToBytesLE : Nat → Nat → List Nat
  | 0, _ => []
  | n + 1, u => (u % 256) :: natToBytesLE n (u / 256)

/-- Read a little-endian unsigned value from a byte list. -/
def bytesToNatLE : List Nat → Nat
  | [] => 0
  | b :: rest => b + 256 * bytesToNatLE rest

/-- Serialize a 32-bit signed integer (two's complement, little endian). -/
def encode32 (v : Int) : List Nat :=
  natToBytesLE 4 (v % (2 ^ 32)).toNat

/-- Interpret 4 bytes as a 32-bit signed integer. -/
def decode32 (bs : List Nat) : Int :=
  let u := bytesToNatLE bs
  if u < 2 ^ 31 then (u : Int) else (u : Int) - 2 ^ 32

/-- `data + off`, reading `len` bytes. -/
def readBytes (data : List Nat) (off len : Nat) : List Nat :=
  (data.drop off).take len

/-- `LogRecordType` (logging/log_record.h, modelled from the spec's record
type list; the concrete integer codes below are the fixed enum values used
consistently by serialization and deserialization). -/
inductive LogRecordType where
  | INVALID
  | INSERT
  | MARKDELETE
  | APPLYDELETE
  | ROLLBACKDELETE
  | UPDATE
  | BEGIN
  | COMMIT
  | ABORT
  | NEWPAGE
deriving DecidableEq, Repr

def LogRecordType.code : LogRecordType → Int
  | .INVALID => 0
  | .INSERT => 1
  | .MARKDELETE => 2
  | .APPLYDELETE => 3
  | .ROLLBACKDELETE => 4
  | .UPDATE => 5
  | .BEGIN => 6
  | .COMMIT => 7
  | .ABORT => 8
  | .NEWPAGE => 9

def LogRecordType.ofCode (c : Int) : LogRecordType :=
  if c = 1 then .INSERT
  else if c = 2 then .MARKDELETE
  else if c = 3 then .APPLYDELETE
  else if c = 4 then .ROLLBACKDELETE
  else if c = 5 then .UPDATE
  else if c = 6 then .BEGIN
  else if c = 7 then .COMMIT
  else if c = 8 then .ABORT
  else if c = 9 then .NEWPAGE
  else .INVALID

/-- A tuple's payload bytes; `Tuple::SerializeTo` writes a 4-byte length
followed by the data (the external length-prefixed tuple codec, §6). -/
structure Tuple where
  data : List Nat
deriving DecidableEq, Repr

def Tuple.serialize (t : Tuple) : List Nat :=
  encode32 (t.data.length : Int) ++ t.data

/-- `Tuple::DeserializeFrom`: read the 4-byte length, then that many
bytes. -/
def Tuple.deserializeFrom (bs : List Nat) : Tuple :=
  ⟨readBytes bs 4 (decode32 (readBytes bs 0 4)).toNat⟩

/-- `RID` serialization: `memcpy` of the 8-byte struct
(`page_id` then `slot_num`, 4 bytes each). -/
def RID.serialize (r : RID) : List Nat :=
  encode32 r.pageId ++ encode32 r.slot

def RID.deserializeFrom (bs : List Nat) : RID :=
  ⟨decode32 (readBytes bs 0 4), decode32 (readBytes bs 4 4)⟩

/-- `LogRecord` (logging/log_record.h).  Modelled from the spec: the header
is `(size, lsn, txn_id, prev_lsn, type)`; the per-type payload fields are
separate members, default-initialized (INVALID rids/empty tuples) unless
the type uses them, as the field-by-field assignments in the sources'
`DeserializeLogRecord` show. -/
structure LogRecord where
  size : Int
  lsn : Int
  txnId : Int
  prevLsn : Int
  type : LogRecordType
  insertRid : RID := ⟨INVALID_PAGE_ID, 0⟩
  insertTuple : Tuple := ⟨[]⟩
  deleteRid : RID := ⟨INVALID_PAGE_ID, 0⟩
  deleteTuple : Tuple := ⟨[]⟩
  updateRid : RID := ⟨INVALID_PAGE_ID, 0⟩
  oldTuple : Tuple := ⟨[]⟩
  newTuple : Tuple := ⟨[]⟩
  prevPageId : PageId := INVALID_PAGE_ID
deriving DecidableEq, Repr

/-- The 20-byte header written by
`memcpy(log_buffer_ + offset_, &log_record, HEADER_SIZE)`. -/
def LogRecord.serializeHeader (r : LogRecord) : List Nat :=
  encode32 r.size ++ encode32 r.lsn ++ encode32 r.txnId ++
    encode32 r.prevLsn ++ encode32 r.type.code

/-- The per-type payload written by the `switch` in
`LogManager::AppendLogRecord`. -/
def LogRecord.serializePayload (r : LogRecord) : List Nat :=
  match r.type with
  | .INSERT => r.insertRid.serialize ++ r.insertTuple.serialize
  | .UPDATE => r.updateRid.serialize ++ r.oldTuple.serialize ++ r.newTuple.serialize
  | .NEWPAGE => encode32 r.prevPageId
  | .APPLYDELETE => r.deleteRid.serialize ++ r.deleteTuple.serialize
  | .MARKDELETE => r.deleteRid.serialize ++ r.deleteTuple.serialize
  | .ROLLBACKDELETE => r.deleteRid.serialize ++ r.deleteTuple.serialize
  | _ => []  -- BEGIN/COMMIT/ABORT record only has header

/-- `LogManager::AppendLogRecord`, after the buffer-space wait loop: stamp
`lsn = next_lsn_++` and serialize header and payload at the current
offset.  Returns the bytes written and the assigned LSN. -/
def LogManager.AppendLogRecord (nextLsn : Int) (r : LogRecord) :
    List Nat × Int :=
  let r₁ := { r with lsn := nextLsn }
  (r₁.serializeHeader ++ r₁.serializePayload, nextLsn)

/-- `LogRecovery::DeserializeLogRecord`.  `data` is the byte suffix of the
log buffer starting at the record (`log_buffer_ + offset_`); `offset` and
`bufSize` are `offset_` and `LOG_BUFFER_SIZE` for the bounds checks. -/
def LogRecovery.DeserializeLogRecord (bufSize offset : Nat) (data : List Nat) :
    Option LogRecord :=
  if offset + 20 > bufSize then none
  else
    let size := decode32 (readBytes data 0 4)
    if size ≤ 0 ∨ (offset : Int) + size > (bufSize : Int) then none
    else
      let base : LogRecord :=
        { size := size
          lsn := decode32 (readBytes data 4 4)
          txnId := decode32 (readBytes data 8 4)
          prevLsn := decode32 (readBytes data 12 4)
          type := LogRecordType.ofCode (decode32 (readBytes data 16 4)) }
      let body := data.drop 20
      some <|
        match base.type with
        | .INSERT =>
            { base with insertRid := RID.deserializeFrom body,
                        insertTuple := Tuple.deserializeFrom (body.drop 8) }
        | .UPDATE =>
            let old := Tuple.deserializeFrom (body.drop 8)
            { base with updateRid := RID.deserializeFrom body,
                        oldTuple := old,
                        newTuple := Tuple.deserializeFrom
                          (body.drop (8 + 4 + old.data.length)) }
        | .NEWPAGE =>
            { base with prevPageId := decode32 (readBytes body 0 4) }
        | .APPLYDELETE =>
            { base with deleteRid := RID.deserializeFrom body,
                        deleteTuple := Tuple.deserializeFrom (body.drop 8) }
        | .MARKDELETE =>
            { base with deleteRid := RID.deserializeFrom body,
                        deleteTuple := Tuple.deserializeFrom (body.drop 8) }
        | .ROLLBACKDELETE =>
            { base with deleteRid := RID.deserializeFrom body,
                        deleteTuple := Tuple.deserializeFrom (body.drop 8) }
        | _ => base

/-! ## Recovery undo pass (logging/log_recovery.cpp, `LogRecovery::Undo`)

For one record of a loser transaction's chain the loop body either stops
(BEGIN), raises a fatal error (unexpected type), or fetches ONE page and
applies one inverse table-page operation to it.  Note the source computes
the page to fetch as `record.insert_rid_.GetPageId()` for *every* record
type. -/

inductive UndoAction where
  | applyDelete (rid : RID)
  | updateTuple (writeTuple expectTuple : Tuple) (rid : RID)
  | insertTuple (t : Tuple) (rid : RID)
  | rollbackDelete (rid : RID)
  | markDelete (rid : RID)
deriving DecidableEq, Repr

inductive UndoStepResult where
  | breakLoop
  | fatal
  | step (fetchedPageId : PageId) (action : UndoAction)
deriving DecidableEq, Repr

/-- One iteration of the `while` loop in `LogRecovery::Undo` applied to a
deserialized record. -/
def LogRecovery.UndoStep (record : LogRecord) : UndoStepResult :=
  if record.type = LogRecordType.BEGIN then
    .breakLoop
  else
    let pageId := record.insertRid.pageId
    if record.type = LogRecordType.INSERT then
      .step pageId (.applyDelete record.insertRid)
    else if record.type = LogRecordType.UPDATE then
      .step pageId (.updateTuple record.oldTuple record.newTuple record.updateRid)
    else if record.type = LogRecordType.APPLYDELETE then
      .step pageId (.insertTuple record.deleteTuple record.deleteRid)
    else if record.type = LogRecordType.MARKDELETE then
      .step pageId (.rollbackDelete record.deleteRid)
    else if record.type = LogRecordType.ROLLBACKDELETE then
      .step pageId (.markDelete record.deleteRid)
    else
      .fatal  -- throw Exception("unexpected log record type")

/-! ## B+Tree pages
(page/b_plus_tree_page.h, page/b_plus_tree_leaf_page.cpp,
page/b_plus_tree_internal_page.cpp)

Keys are `Nat` (the template's comparator instantiated with the natural
order); entry values are `Int`: an RID surrogate on a leaf, a child
`page_id_t` on an internal page (whose slot-0 key is a sentinel).  A
page's `size_` is the length of its entry list. -/

structure BPage where
  isLeaf : Bool
  pageId : PageId
  parentPageId : PageId
  entries : List (Nat × Int)
  nextPageId : PageId
  maxSize : Nat
deriving DecidableEq, Repr

/-- Modelled from the spec: `BPlusTreePage::GetMinSize` lives in
b_plus_tree_page.cpp, which is not among the sources; the spec states
`min_size = ceil(max_size/2)`. -/
def BPage.minSize (p : BPage) : Nat := (p.maxSize + 1) / 2

def BPage.IsRootPage (p : BPage) : Bool := p.parentPageId = INVALID_PAGE_ID

/-- The element-shifting loops that insert at / remove from an array
position. -/
def insertAt (l : List (Nat × Int)) (i : Nat) (e : Nat × Int) : List (Nat × Int) :=
  l.take i ++ e :: l.drop i

def removeAt (l : List (Nat × Int)) (i : Nat) : List (Nat × Int) :=
  l.take i ++ l.drop (i + 1)

/-- `array[index].first = key`. -/
def setKeyAt (l : List (Nat × Int)) (i : Nat) (k : Nat) : List (Nat × Int) :=
  l.set i (k, (l.getD i (0, 0)).2)

/-- `BPlusTreeLeafPage::KeyIndex` binary search: first index whose key is
`≥ key`.  The loop is embedded with fuel (each iteration shrinks
`stop - start`, so any fuel above the initial `stop - start` is enough
and the fuel-exhaustion branch is unreachable). -/
def keyIndexAux (entries : List (Nat × Int)) (key : Nat) : Nat → Nat → Nat → Nat
  | 0, start, _ => start
  | fuel + 1, start, stop =>
    if start < stop then
      let mid := start + (stop - start) / 2
      if key > (entries.getD mid (0, 0)).1 then
        keyIndexAux entries key fuel (mid + 1) stop
      else
        keyIndexAux entries key fuel start mid
    else start

def BPage.KeyIndex (p : BPage) (key : Nat) : Nat :=
  keyIndexAux p.entries key (p.entries.length + 1) 0 p.entries.length

/-- `BPlusTreeLeafPage::Insert`; returns the page and the new size. -/
def BPage.leafInsert (p : BPage) (key : Nat) (value : Int) : BPage × Nat :=
  let index := p.KeyIndex key
  -- if same key found, do not perform insertion
  if index < p.entries.length ∧ (p.entries.getD index (0, 0)).1 = key then
    (p, p.entries.length)
  else
    ({ p with entries := insertAt p.entries index (key, value) },
     p.entries.length + 1)

/-- `BPlusTreeLeafPage::Lookup`. -/
def BPage.leafLookup (p : BPage) (key : Nat) : Option Int :=
  let index := p.KeyIndex key
  if index < p.entries.length ∧ (p.entries.getD index (0, 0)).1 = key then
    some (p.entries.getD index (0, 0)).2
  else
    none

/-- `BPlusTreeLeafPage::RemoveAndDeleteRecord`; returns the page and the
new size. -/
def BPage.leafRemoveAndDeleteRecord (p : BPage) (key : Nat) : BPage × Nat :=
  let index := p.KeyIndex key
  if index < p.entries.length ∧ (p.entries.getD index (0, 0)).1 = key then
    ({ p with entries := removeAt p.entries index }, p.entries.length - 1)
  else
    (p, p.entries.length)

/-- `BPlusTreeLeafPage::MoveHalfTo` (with `CopyHalfFrom`): move the last
`GetMinSize()` entries to the fresh recipient and relink `next_page_id`. -/
def BPage.leafMoveHalfTo (p recipient : BPage) : BPage × BPage :=
  let size := p.entries.length
  let half := p.minSize
  let recipient₁ := { recipient with entries := p.entries.drop (size - half),
                                     nextPageId := p.nextPageId }
  let p₁ := { p with entries := p.entries.take (size - half),
                     nextPageId := recipient.pageId }
  (p₁, recipient₁)

/-- `BPlusTreeInternalPage::Lookup` binary search over slots `1..size`;
returns the child at `start - 1` (fuel as in `keyIndexAux`). -/
def internalLookupAux (entries : List (Nat × Int)) (key : Nat) : Nat → Nat → Nat → Nat
  | 0, start, _ => start
  | fuel + 1, start, stop =>
    if start < stop then
      let mid := start + (stop - start) / 2
      if key < (entries.getD mid (0, 0)).1 then
        internalLookupAux entries key fuel start mid
      else
        internalLookupAux entries key fuel (mid + 1) stop
    else start

def BPage.internalLookup (p : BPage) (key : Nat) : Int :=
  (p.entries.getD
    (internalLookupAux p.entries key (p.entries.length + 1) 1 p.entries.length - 1)
    (0, 0)).2

/-- The scan loop of `BPlusTreeInternalPage::ValueIndex`. -/
def valueIndexAux : List (Nat × Int) → Int → Nat → Option Nat
  | [], _, _ => none
  | e :: rest, v, i => if e.2 = v then some i else valueIndexAux rest v (i + 1)

/-- `BPlusTreeInternalPage::ValueIndex`, as an `Option` (the source
returns `-1` when absent and callers assert it is `≥ 0`). -/
def BPage.ValueIndex (p : BPage) (v : Int) : Option Nat :=
  valueIndexAux p.entries v 0

/-- `BPlusTreeInternalPage::InsertNodeAfter`; `none` where the source
asserts `index >= 0`. -/
def BPage.internalInsertNodeAfter (p : BPage) (oldValue : Int) (newKey : Nat)
    (newValue : Int) : Option (BPage × Nat) :=
  match p.ValueIndex oldValue with
  | none => none
  | some index =>
      some ({ p with entries := insertAt p.entries (index + 1) (newKey, newValue) },
            p.entries.length + 1)

/-- `BPlusTreeInternalPage::Remove`. -/
def BPage.internalRemove (p : BPage) (index : Nat) : BPage :=
  { p with entries := removeAt p.entries index }

/-! ## B+Tree (index/b_plus_tree.cpp)

The buffer pool is a page store `List (PageId × BPage)`;
`NewPage` allocates ids from a counter, `DeletePage` erases from the
store.  Recursive descent carries explicit fuel (always instantiated
above the page count, so that it never runs out on well-formed trees). -/

abbrev Store := List (PageId × BPage)

/-- Set `parent_page_id` on each of the given children (the loops in
`BPlusTreeInternalPage::CopyHalfFrom` / `CopyAllFrom`). -/
def setParents : Store → List Int → PageId → Option Store
  | store, [], _ => some store
  | store, c :: rest, pid =>
      match alookup store c with
      | none => none
      | some page => setParents (aset store c { page with parentPageId := pid }) rest pid

structure BPlusTree where
  rootPageId : PageId
  pages : Store
  nextNewPageId : PageId
  leafMaxSize : Nat
  internalMaxSize : Nat
deriving DecidableEq, Repr

def BPlusTree.IsEmpty (t : BPlusTree) : Bool := t.rootPageId = INVALID_PAGE_ID

def findLeafPageAux : Nat → Store → PageId → Nat → Option PageId
  | 0, _, _, _ => none
  | fuel + 1, pages, pid, key =>
      match alookup pages pid with
      | none => none
      | some p =>
          if p.isLeaf then some pid
          else findLeafPageAux fuel pages (p.internalLookup key) key

/-- `BPlusTree::FindLeafPage` (non-leftMost variant). -/
def BPlusTree.FindLeafPage (t : BPlusTree) (key : Nat) : Option PageId :=
  if t.rootPageId = INVALID_PAGE_ID then none
  else findLeafPageAux (t.pages.length + 1) t.pages t.rootPageId key

/-- `BPlusTree::GetValue`. -/
def BPlusTree.GetValue (t : BPlusTree) (key : Nat) : Option Int :=
  if t.rootPageId = INVALID_PAGE_ID then none
  else
    match t.FindLeafPage key with
    | none => none
    | some pid =>
        match alookup t.pages pid with
        | none => none
        | some leaf => leaf.leafLookup key

/-- `BPlusTree::StartNewTree`. -/
def BPlusTree.StartNewTree (t : BPlusTree) (key : Nat) (value : Int) : BPlusTree :=
  let pid := t.nextNewPageId
  let root : BPage :=
    { isLeaf := true, pageId := pid, parentPageId := INVALID_PAGE_ID,
      entries := [], nextPageId := INVALID_PAGE_ID, maxSize := t.leafMaxSize }
  let root₁ := (root.leafInsert key value).1
  { t with rootPageId := pid, pages := aset t.pages pid root₁,
           nextNewPageId := t.nextNewPageId + 1 }

/-- `BPlusTree::Split` for a leaf node; returns the tree and the new
page's id. -/
def splitLeaf (t : BPlusTree) (pid : PageId) : Option (BPlusTree × PageId) :=
  match alookup t.pages pid with
  | none => none
  | some node =>
      let newPid := t.nextNewPageId
      let fresh : BPage :=
        { isLeaf := true, pageId := newPid, parentPageId := node.parentPageId,
          entries := [], nextPageId := INVALID_PAGE_ID, maxSize := t.leafMaxSize }
      let moved := node.leafMoveHalfTo fresh
      some ({ t with pages := aset (aset t.pages pid moved.1) newPid moved.2,
                     nextNewPageId := t.nextNewPageId + 1 }, newPid)

/-- `BPlusTree::Split` for an internal node
(`BPlusTreeInternalPage::MoveHalfTo` keeps the first `GetMinSize()`
entries and moves the rest, updating the moved children's parents). -/
def splitInternal (t : BPlusTree) (pid : PageId) : Option (BPlusTree × PageId) :=
  match alookup t.pages pid with
  | none => none
  | some node =>
      let newPid := t.nextNewPageId
      let half := node.minSize
      let movedEntries := node.entries.drop half
      let fresh : BPage :=
        { isLeaf := false, pageId := newPid, parentPageId := node.parentPageId,
          entries := movedEntries, nextPageId := INVALID_PAGE_ID,
          maxSize := t.internalMaxSize }
      let node₁ := { node with entries := node.entries.take half }
      let pages₁ := aset (aset t.pages pid node₁) newPid fresh
      match setParents pages₁ (movedEntries.map (·.2)) newPid with
      | none => none
      | some pages₂ =>
          some ({ t with pages := pages₂, nextNewPageId := t.nextNewPageId + 1 }, newPid)

/-- `BPlusTree::InsertIntoParent`. -/
def insertIntoParent : Nat → BPlusTree → PageId → Nat → PageId → Option BPlusTree
  | 0, _, _, _, _ => none
  | fuel + 1, t, oldId, key, newId =>
      match alookup t.pages oldId, alookup t.pages newId with
      | some oldNode, some newNode =>
          if oldNode.parentPageId = INVALID_PAGE_ID then
            -- allocate a new root and populate it (PopulateNewRoot)
            let rootId := t.nextNewPageId
            let newRoot : BPage :=
              { isLeaf := false, pageId := rootId, parentPageId := INVALID_PAGE_ID,
                entries := [(0, oldId), (key, newId)], nextPageId := INVALID_PAGE_ID,
                maxSize := t.internalMaxSize }
            let oldNode₁ := { oldNode with parentPageId := rootId }
            let newNode₁ := { newNode with parentPageId := rootId }
            some { t with rootPageId := rootId,
                          pages := aset (aset (aset t.pages rootId newRoot) oldId oldNode₁)
                                    newId newNode₁,
                          nextNewPageId := t.nextNewPageId + 1 }
          else
            match alookup t.pages oldNode.parentPageId with
            | none => none
            | some parent =>
                match parent.internalInsertNodeAfter oldId key newId with
                | none => none
                | some (parent₁, size) =>
                    let t₁ := { t with pages := aset t.pages parent.pageId parent₁ }
                    if size > parent₁.maxSize then
                      match splitInternal t₁ parent₁.pageId with
                      | none => none
                      | some (t₂, nextPid) =>
                          match alookup t₂.pages nextPid with
                          | none => none
                          | some nextNode =>
                              -- promote first key in the new node
                              insertIntoParent fuel t₂ parent₁.pageId
                                ((nextNode.entries.getD 0 (0, 0)).1) nextPid
                    else some t₁
      | _, _ => none

/-- `BPlusTree::InsertIntoLeaf`. -/
def BPlusTree.InsertIntoLeaf (t : BPlusTree) (key : Nat) (value : Int) :
    Option (BPlusTree × Bool) :=
  match t.FindLeafPage key with
  | none => none
  | some pid =>
      match alookup t.pages pid with
      | none => none
      | some leaf =>
          let ins := leaf.leafInsert key value
          let inserted := ins.2 ≠ leaf.entries.length
          let t₁ := { t with pages := aset t.pages pid ins.1 }
          if ins.2 > ins.1.maxSize then
            match splitLeaf t₁ pid with
            | none => none
            | some (t₂, newPid) =>
                match alookup t₂.pages newPid with
                | none => none
                | some newNode =>
                    -- copy the first key in the new node to the parent
                    match insertIntoParent (t₂.pages.length + 2) t₂ pid
                        ((newNode.entries.getD 0 (0, 0)).1) newPid with
                    | none => none
                    | some t₃ => some (t₃, inserted)
          else some (t₁, inserted)

/-- `BPlusTree::Insert`. -/
def BPlusTree.Insert (t : BPlusTree) (key : Nat) (value : Int) :
    Option (BPlusTree × Bool) :=
  if t.rootPageId = INVALID_PAGE_ID then
    some (t.StartNewTree key value, true)
  else
    t.InsertIntoLeaf key value

/-- `BPlusTree::AdjustRoot`. -/
def BPlusTree.AdjustRoot (t : BPlusTree) (oldRoot : BPage) : Option (BPlusTree × Bool) :=
  -- root node is the last element in the whole tree
  if oldRoot.isLeaf ∧ oldRoot.entries.length = 0 then
    some ({ t with rootPageId := INVALID_PAGE_ID }, true)
  -- root node is an internal node and has no valid key but one child
  else if ¬oldRoot.isLeaf ∧ oldRoot.entries.length = 1 then
    let newRootId := (oldRoot.entries.getD 0 (0, 0)).2
    match alookup t.pages newRootId with
    | none => none
    | some newRoot =>
        some ({ t with rootPageId := newRootId,
                       pages := aset (aset t.pages oldRoot.pageId
                                  { oldRoot with entries := [] })
                                newRootId { newRoot with parentPageId := INVALID_PAGE_ID } },
              true)
  else
    some (t, false)

/-- `BPlusTreeLeafPage::MoveFirstToEndOf` (with `CopyLastFrom` and the
parent `SetKeyAt`). -/
def leafMoveFirstToEndOf (pages : Store) (p recipient : BPage) (parentIndex : Nat) :
    Option Store :=
  match p.entries with
  | [] => none
  | e :: rest =>
      let recipient₁ := { recipient with entries := recipient.entries ++ [e] }
      let p₁ := { p with entries := rest }
      match alookup pages p.parentPageId with
      | none => none
      | some parent =>
          -- update parent page key to first key in this page after move
          let parent₁ := { parent with
            entries := setKeyAt parent.entries parentIndex ((p₁.entries.getD 0 (0, 0)).1) }
          some (aset (aset (aset pages p.pageId p₁) recipient.pageId recipient₁)
                  parent.pageId parent₁)

/-- `BPlusTreeLeafPage::MoveLastToFrontOf` (with `CopyFirstFrom` and the
parent `SetKeyAt`). -/
def leafMoveLastToFrontOf (pages : Store) (p recipient : BPage) (parentIndex : Nat) :
    Option Store :=
  match p.entries.getLast? with
  | none => none
  | some e =>
      let recipient₁ := { recipient with entries := e :: recipient.entries }
      let p₁ := { p with entries := p.entries.dropLast }
      match alookup pages p.parentPageId with
      | none => none
      | some parent =>
          -- update parent page key to first key in recipient after move
          let parent₁ := { parent with
            entries := setKeyAt parent.entries parentIndex e.1 }
          some (aset (aset (aset pages p.pageId p₁) recipient.pageId recipient₁)
                  parent.pageId parent₁)

/-- `BPlusTreeInternalPage::MoveFirstToEndOf` (with `CopyLastFrom`, which
also reparents the moved child). -/
def internalMoveFirstToEndOf (pages : Store) (p recipient : BPage) (parentIndex : Nat) :
    Option Store :=
  match alookup pages p.parentPageId with
  | none => none
  | some parent =>
      match p.entries with
      | [] => none
      | e :: rest =>
          let pair : Nat × Int := ((parent.entries.getD parentIndex (0, 0)).1, e.2)
          let recipient₁ := { recipient with entries := recipient.entries ++ [pair] }
          let p₁ := { p with entries := rest }
          let parent₁ := { parent with
            entries := setKeyAt parent.entries parentIndex ((p₁.entries.getD 0 (0, 0)).1) }
          let pages₁ := aset (aset (aset pages p.pageId p₁) recipient.pageId recipient₁)
                          parent.pageId parent₁
          match alookup pages₁ pair.2 with
          | none => none
          | some child =>
              some (aset pages₁ pair.2 { child with parentPageId := recipient.pageId })

/-- `BPlusTreeInternalPage::MoveLastToFrontOf` (with `CopyFirstFrom`).
NOTE: the source fetches the page whose id equals `parent_index`
(`FetchPage(buffer_pool_manager, parent_index)`), not the parent page;
the model reproduces that behaviour faithfully. -/
def internalMoveLastToFrontOf (pages : Store) (p recipient : BPage) (parentIndex : Nat) :
    Option Store :=
  match alookup pages (parentIndex : Int) with
  | none => none
  | some parent =>
      match p.entries.getLast? with
      | none => none
      | some e =>
          let pair : Nat × Int := ((parent.entries.getD parentIndex (0, 0)).1, e.2)
          -- CopyFirstFrom: shift right, array[1].first = pair.first,
          -- array[0].second = pair.second
          let recipient₁ :=
            { recipient with entries :=
                match recipient.entries with
                | [] => [(0, pair.2)]
                | e0 :: rest => (e0.1, pair.2) :: (pair.1, e0.2) :: rest }
          let p₁ := { p with entries := p.entries.dropLast }
          let parent₁ := { parent with
            entries := setKeyAt parent.entries parentIndex
              ((p₁.entries.getD (p₁.entries.length - 1) (0, 0)).1) }
          let pages₁ := aset (aset (aset pages p.pageId p₁) recipient.pageId recipient₁)
                          parent.pageId parent₁
          match alookup pages₁ pair.2 with
          | none => none
          | some child =>
              some (aset pages₁ pair.2 { child with parentPageId := recipient.pageId })

/-- `BPlusTree::Redistribute`: if `index == 0` move the sibling's first
entry to the end of `node`, otherwise its last entry to the front. -/
def BPlusTree.Redistribute (t : BPlusTree) (neighborId nodeId : PageId) (index : Nat) :
    Option BPlusTree :=
  match alookup t.pages neighborId, alookup t.pages nodeId with
  | some neighbor, some node =>
      let moved :=
        if index = 0 then
          if neighbor.isLeaf then leafMoveFirstToEndOf t.pages neighbor node 1
          else internalMoveFirstToEndOf t.pages neighbor node 1
        else
          if neighbor.isLeaf then leafMoveLastToFrontOf t.pages neighbor node index
          else internalMoveLastToFrontOf t.pages neighbor node index
      match moved with
      | none => none
      | some pages₁ => some { t with pages := pages₁ }
  | _, _ => none

/-- `BPlusTreeLeafPage::MoveAllTo` (with `CopyAllFrom`): append all
entries to the recipient and take over the next pointer. -/
def leafMoveAllTo (pages : Store) (p recipient : BPage) : Store :=
  let recipient₁ := { recipient with entries := recipient.entries ++ p.entries,
                                     nextPageId := p.nextPageId }
  let p₁ := { p with entries := [] }
  aset (aset pages p.pageId p₁) recipient.pageId recipient₁

/-- `BPlusTreeInternalPage::MoveAllTo` (with `CopyAllFrom`): demote the
parent's separator key into slot 0, append everything to the recipient,
reparent the moved children. -/
def internalMoveAllTo (pages : Store) (p recipient : BPage) (indexInParent : Nat) :
    Option Store :=
  match alookup pages p.parentPageId with
  | none => none
  | some parent =>
      let demoted := (parent.entries.getD indexInParent (0, 0)).1
      let moved :=
        match p.entries with
        | [] => []
        | e :: rest => (demoted, e.2) :: rest
      let recipient₁ := { recipient with entries := recipient.entries ++ moved }
      let p₁ := { p with entries := [] }
      let pages₁ := aset (aset pages p.pageId p₁) recipient.pageId recipient₁
      setParents pages₁ (moved.map (·.2)) recipient.pageId

/-- The non-recursive part of `BPlusTree::Coalesce`: swap roles if
`index == 0`, move everything into the left page, remove the separator
from the parent.  Returns the updated tree together with the updated
parent page; the caller (`CoalesceOrRedistribute`) performs Coalesce's
recursive rebalancing of an underflowing parent. -/
def CoalesceStep (t : BPlusTree) (neighborId nodeId parentId : PageId) (index : Nat) :
    Option (BPlusTree × BPage) :=
  let swapped := if index = 0 then (neighborId, nodeId, 1) else (nodeId, neighborId, index)
  let moverId := swapped.1
  let recipId := swapped.2.1
  let index₁ := swapped.2.2
  match alookup t.pages moverId, alookup t.pages recipId with
  | some mover, some recip =>
      let movedPages :=
        if mover.isLeaf then some (leafMoveAllTo t.pages mover recip)
        else internalMoveAllTo t.pages mover recip index₁
      match movedPages with
      | none => none
      | some pages₁ =>
          match alookup pages₁ parentId with
          | none => none
          | some parent =>
              let parent₁ := parent.internalRemove index₁
              some ({ t with pages := aset pages₁ parentId parent₁ }, parent₁)
  | _, _ => none

/-- `BPlusTree::CoalesceOrRedistribute` (with `BPlusTree::Coalesce`
inlined via `CoalesceStep` so that the mutual recursion becomes a single
fuel recursion); the returned `Bool` tells the caller to delete `node`'s
page. -/
def CoalesceOrRedistribute : Nat → BPlusTree → PageId → Option (BPlusTree × Bool)
  | 0, _, _ => none
  | fuel + 1, t, nodeId =>
      match alookup t.pages nodeId with
      | none => none
      | some node =>
          if node.IsRootPage then t.AdjustRoot node
          else
            match alookup t.pages node.parentPageId with
            | none => none
            | some parent =>
                match parent.ValueIndex nodeId with
                | none => none
                | some nodeIndex =>
                    let siblingIndex := if nodeIndex = 0 then 1 else nodeIndex - 1
                    match parent.entries[siblingIndex]? with
                    | none => none
                    | some sibEntry =>
                        match alookup t.pages sibEntry.2 with
                        | none => none
                        | some sibling =>
                            let coalesce := sibling.entries.length ≤ sibling.minSize
                            if coalesce then
                              match CoalesceStep t sibEntry.2 nodeId
                                  node.parentPageId nodeIndex with
                              | none => none
                              | some (t₁, parent₁) =>
                                  -- Coalesce: rebalance the parent if it
                                  -- underflows; its Bool result says to
                                  -- delete the parent page
                                  let res :=
                                    if parent₁.entries.length < parent₁.minSize then
                                      CoalesceOrRedistribute fuel t₁ node.parentPageId
                                    else some (t₁, false)
                                  match res with
                                  | none => none
                                  | some (t₂, deleteParent) =>
                                      -- if node_index is 0, node and sibling
                                      -- were swapped, so the sibling page is
                                      -- deleted
                                      let t₃ :=
                                        if nodeIndex = 0 then
                                          { t₂ with pages := aerase t₂.pages sibEntry.2 }
                                        else t₂
                                      let t₄ :=
                                        if deleteParent then
                                          { t₃ with pages := aerase t₃.pages node.parentPageId }
                                        else t₃
                                      some (t₄, nodeIndex ≠ 0)
                            else
                              match t.Redistribute sibEntry.2 nodeId nodeIndex with
                              | none => none
                              | some t₁ => some (t₁, false)

/-- `BPlusTree::Remove`. -/
def BPlusTree.Remove (t : BPlusTree) (key : Nat) : Option BPlusTree :=
  if t.rootPageId = INVALID_PAGE_ID then some t
  else
    match t.FindLeafPage key with
    | none => none
    | some pid =>
        match alookup t.pages pid with
        | none => none
        | some leaf =>
            let rem := leaf.leafRemoveAndDeleteRecord key
            let removed := rem.2 ≠ leaf.entries.length
            let t₁ := { t with pages := aset t.pages pid rem.1 }
            if removed ∧ rem.2 < rem.1.minSize then
              match CoalesceOrRedistribute (t₁.pages.length + 2) t₁ pid with
              | none => none
              | some (t₂, del) =>
                  some (if del then { t₂ with pages := aerase t₂.pages pid } else t₂)
            else some t₁

/-! ## Theorems -/

/-- C10: For every transaction txn and rid, if Unlock(txn, rid) is called
when rid is absent from the lock table or txn is not in the granted set
for rid, then the call returns false, txn's state is set to ABORTED, and
the lock table is left unchanged. -/
theorem C10_unlock_error_paths (strict : Bool) (table : LockTable)
    (txn : Transaction) (rid : RID)
    (h : alookup table rid = none ∨
         ∃ g, alookup table rid = some g ∧ txn.txnId ∉ g.granted_set) :
    LockManager.Unlock strict table txn rid =
      (false, { txn with state := TransactionState.ABORTED }, table) := by
  unfold LockManager.Unlock
  by_cases hs : strict = true ∧ ¬(txn.state = TransactionState.COMMITTED
      ∨ txn.state = TransactionState.ABORTED)
  · simp [hs]
  · rcases h with h | ⟨g, hg, hmem⟩
    · simp [hs, h]
    · simp [hs, hg, hmem]

/-- Witness for C10 at a concrete input: an unlock of a never-locked rid
fails, aborts the transaction and leaves the (empty) lock table alone. -/
theorem C10_unlock_error_paths_witness :
    (alookup ([] : LockTable) ⟨1, 2⟩ = none ∨
       ∃ g, alookup ([] : LockTable) ⟨1, 2⟩ = some g ∧ (5 : Nat) ∉ g.granted_set) ∧
    LockManager.Unlock false []
        ⟨5, TransactionState.GROWING, ∅, ∅⟩ ⟨1, 2⟩ =
      (false, ⟨5, TransactionState.ABORTED, ∅, ∅⟩, []) :=
  ⟨Or.inl rfl,
   C10_unlock_error_paths false [] ⟨5, TransactionState.GROWING, ∅, ∅⟩ ⟨1, 2⟩
     (Or.inl rfl)⟩

/-- C2: For every lock acquisition (lock_shared against an EXCLUSIVE
holder, lock_exclusive against any holder) by a transaction in GROWING
state, if the requester's txn_id is greater than or equal to the smallest
holder txn_id then the requester's state is set to ABORTED and the call
returns false without waiting; only a requester whose txn_id is strictly
smaller than every holder's waits. -/
theorem C2_wait_die (table : LockTable) (txn : Transaction) (rid : RID)
    (g : GrantedTxns)
    (hstate : txn.state = TransactionState.GROWING)
    (hg : alookup table rid = some g)
    (hne : g.granted_set.Nonempty) :
    (g.lockType = LockType.EXCLUSIVE →
      (g.minHolder ≤ txn.txnId →
        LockManager.LockShared table txn rid =
          .ret false { txn with state := TransactionState.ABORTED } table) ∧
      (txn.txnId < g.minHolder →
        LockManager.LockShared table txn rid = .wait txn table)) ∧
    ((g.minHolder ≤ txn.txnId →
        LockManager.LockExclusive table txn rid =
          .ret false { txn with state := TransactionState.ABORTED } table) ∧
      (txn.txnId < g.minHolder →
        LockManager.LockExclusive table txn rid = .wait txn table)) := by
  have hvalid : LockManager.TxnStateValidForLock txn = (true, txn) := by
    simp [LockManager.TxnStateValidForLock, hstate]
  refine ⟨fun hx => ⟨fun hle => ?_, fun hlt => ?_⟩, fun hle => ?_, fun hlt => ?_⟩
  · simp [LockManager.LockShared, hvalid, hg, hx, hle]
  · simp [LockManager.LockShared, hvalid, hg, hx, Nat.not_le.mpr hlt]
  · simp [LockManager.LockExclusive, hvalid, hg, hle]
  · simp [LockManager.LockExclusive, hvalid, hg, Nat.not_le.mpr hlt]

/-- Witness for C2 at a concrete input: txn 7 requesting against an
EXCLUSIVE lock held by txn 3 aborts (7 ≥ 3). -/
theorem C2_wait_die_witness :
    ((⟨7, TransactionState.GROWING, ∅, ∅⟩ : Transaction).state =
        TransactionState.GROWING ∧
     alookup [((⟨1, 2⟩ : RID), (⟨LockType.EXCLUSIVE, {3}⟩ : GrantedTxns))] ⟨1, 2⟩ =
        some ⟨LockType.EXCLUSIVE, {3}⟩ ∧
     (⟨LockType.EXCLUSIVE, ({3} : Finset Nat)⟩ : GrantedTxns).granted_set.Nonempty) ∧
    ((⟨LockType.EXCLUSIVE, ({3} : Finset Nat)⟩ : GrantedTxns).lockType =
        LockType.EXCLUSIVE →
      ((⟨LockType.EXCLUSIVE, ({3} : Finset Nat)⟩ : GrantedTxns).minHolder ≤ 7 →
        LockManager.LockShared [(⟨1, 2⟩, ⟨LockType.EXCLUSIVE, {3}⟩)]
            ⟨7, TransactionState.GROWING, ∅, ∅⟩ ⟨1, 2⟩ =
          .ret false ⟨7, TransactionState.ABORTED, ∅, ∅⟩
            [(⟨1, 2⟩, ⟨LockType.EXCLUSIVE, {3}⟩)]) ∧
      ((7 : Nat) < (⟨LockType.EXCLUSIVE, ({3} : Finset Nat)⟩ : GrantedTxns).minHolder →
        LockManager.LockShared [(⟨1, 2⟩, ⟨LockType.EXCLUSIVE, {3}⟩)]
            ⟨7, TransactionState.GROWING, ∅, ∅⟩ ⟨1, 2⟩ =
          .wait ⟨7, TransactionState.GROWING, ∅, ∅⟩
            [(⟨1, 2⟩, ⟨LockType.EXCLUSIVE, {3}⟩)])) :=
  ⟨⟨rfl, by decide, by decide⟩,
   (C2_wait_die [(⟨1, 2⟩, ⟨LockType.EXCLUSIVE, {3}⟩)]
      ⟨7, TransactionState.GROWING, ∅, ∅⟩ ⟨1, 2⟩ ⟨LockType.EXCLUSIVE, {3}⟩
      rfl (by decide) (by decide)).1⟩

/-- The replacer state after `Insert(1); Insert(1)`: the second insert
re-inserts a present value, and `value_map.emplace` silently fails to
update the stored iterator. -/
def lruBugState : LRUReplacer := (LRUReplacer.empty.Insert 1).Insert 1

/-- C9 (code evaluated at the failing input): after `Insert(1); Insert(1)`,
`Erase(1)` returns true but value 1 is still in the access list — the
map's stale iterator (node id 0) no longer names the live node (id 1), so
the list erase removes nothing (undefined behaviour in the C++).  The
claim's "a subsequent erase(v) removes v and returns true" fails. -/
theorem C9_lru_erase_after_reinsert_broken :
    (lruBugState.Erase 1).1 = true ∧
    (lruBugState.Erase 1).2.accessList.map (·.2) = [1] ∧
    alookup lruBugState.valueMap 1 = some 0 ∧
    lruBugState.accessList = [(1, 1)] := by decide

/-- The UPDATE log record of the failing input for C4, as a transaction
would build it (`LogRecord(txn_id, prev_lsn, UPDATE, rid, old, new)`:
size = header 20 + rid 8 + (4+len) per tuple). -/
def c4Record : LogRecord :=
  { size := 20 + 8 + (4 + 1) + (4 + 1), lsn := INVALID_LSN, txnId := 2,
    prevLsn := 1, type := LogRecordType.UPDATE,
    updateRid := ⟨7, 3⟩, oldTuple := ⟨[10]⟩, newTuple := ⟨[11]⟩ }

/-- The record recovery sees: serialized by `LogManager::AppendLogRecord`
(assigned LSN 3), deserialized by `LogRecovery::DeserializeLogRecord`. -/
def c4Deserialized : LogRecord :=
  match LogRecovery.DeserializeLogRecord 4096 0
      (LogManager.AppendLogRecord 3 c4Record).1 with
  | some r => r
  | none => c4Record

/-- C4 (code evaluated at the failing input): undoing an UPDATE record
whose `update_rid_` is page 7 fetches the page named by `insert_rid_`
(default-initialized, INVALID_PAGE_ID = -1) instead of page 7 — the
source computes `record.insert_rid_.GetPageId()` for every record type.
The inverse operation itself (old and new tuples swapped, at update_rid)
matches the claim, but it is applied to the wrongly fetched page. -/
theorem C4_undo_fetches_wrong_page :
    c4Deserialized.updateRid = ⟨7, 3⟩ ∧
    LogRecovery.UndoStep c4Deserialized =
      .step INVALID_PAGE_ID (.updateTuple ⟨[10]⟩ ⟨[11]⟩ ⟨7, 3⟩) ∧
    INVALID_PAGE_ID ≠ c4Deserialized.updateRid.pageId := by decide

theorem commitWaitLoop_ge (lsn : Int) (flushes : List Int) (plsn q : Int)
    (evs : List CommitEvent)
    (h : commitWaitLoop lsn flushes plsn = some (q, evs)) :
    lsn ≤ q ∧ ∀ e ∈ evs, ∃ p, e = CommitEvent.waitFlush p := by
  induction flushes generalizing plsn q evs with
  | nil =>
      rw [commitWaitLoop] at h
      by_cases hgt : lsn > plsn
      · simp [hgt] at h
      · rw [if_neg hgt] at h
        simp only [Option.some.injEq, Prod.mk.injEq] at h
        obtain ⟨h1, h2⟩ := h
        refine ⟨by omega, ?_⟩
        intro e he
        rw [← h2] at he
        simp at he
  | cons p rest ih =>
      rw [commitWaitLoop] at h
      by_cases hgt : lsn > plsn
      · simp only [if_pos hgt] at h
        cases hrec : commitWaitLoop lsn rest p with
        | none => rw [hrec] at h; exact absurd h (by simp)
        | some qe =>
            obtain ⟨q₁, evs₁⟩ := qe
            rw [hrec] at h
            simp only [Option.some.injEq, Prod.mk.injEq] at h
            obtain ⟨hq, hevs⟩ := h
            obtain ⟨hge, hall⟩ := ih p q₁ evs₁ hrec
            subst hq
            refine ⟨hge, ?_⟩
            intro e he
            rw [← hevs] at he
            rcases List.mem_cons.mp he with he | he
            · exact ⟨p, he⟩
            · exact hall e he
      · rw [if_neg hgt] at h
        simp only [Option.some.injEq, Prod.mk.injEq] at h
        obtain ⟨h1, h2⟩ := h
        refine ⟨by omega, ?_⟩
        intro e he
        rw [← h2] at he
        simp at he

/-- C3: When Commit(txn) returns with logging enabled, persistent_lsn is
greater than or equal to the LSN assigned to that transaction's COMMIT
log record (the commit waits in a loop on the log flush until this
holds), and only then are the transaction's locks released: every
lock-release event in the commit's event trace comes after all of its
flush-wait events. -/
theorem C3_commit_forces_wal (strict : Bool) (flushes : List Int)
    (lockRids : List RID) (table : LockTable) (txn : Transaction)
    (writeSet : List WriteItem) (nextLsn plsn : Int) (out : CommitOutcome)
    (h : TransactionManager.Commit strict true flushes lockRids table txn
           writeSet nextLsn plsn = some out) :
    out.commitLsn ≤ out.persistentLsn ∧
    ∃ waits, out.events = waits ++ lockRids.map CommitEvent.releaseLock ∧
      ∀ e ∈ waits, ∃ p, e = CommitEvent.waitFlush p := by
  unfold TransactionManager.Commit at h
  split at h
  · dsimp only [] at h
    cases hloop : commitWaitLoop nextLsn flushes plsn with
    | none => rw [hloop] at h; exact absurd h (by simp)
    | some qe =>
        obtain ⟨q, evs⟩ := qe
        rw [hloop] at h
        simp only [Option.some.injEq] at h
        obtain ⟨hge, hall⟩ := commitWaitLoop_ge nextLsn flushes plsn q evs hloop
        subst h
        exact ⟨hge, evs, rfl, hall⟩
  · exact absurd rfl (by assumption)

/-- Witness for C3 at a concrete input: txn 4 holding one lock commits
with `next_lsn = 3`, `persistent_lsn = 0`; one flush advances the
persistent LSN to 5 and the loop exits. -/
theorem C3_commit_forces_wal_witness :
    TransactionManager.Commit false true [5] [⟨1, 2⟩] []
        ⟨4, TransactionState.GROWING, {⟨1, 2⟩}, ∅⟩ [] 3 0 =
      some { txn := ⟨4, TransactionState.ABORTED, {⟨1, 2⟩}, ∅⟩,
             table := [], commitLsn := 3, nextLsn := 4, persistentLsn := 5,
             appliedDeletes := [],
             events := [CommitEvent.waitFlush 5, CommitEvent.releaseLock ⟨1, 2⟩] } ∧
    ((3 : Int) ≤ 5 ∧
     ∃ waits, [CommitEvent.waitFlush 5, CommitEvent.releaseLock (⟨1, 2⟩ : RID)] =
         waits ++ [(⟨1, 2⟩ : RID)].map CommitEvent.releaseLock ∧
       ∀ e ∈ waits, ∃ p, e = CommitEvent.waitFlush p) := by
  constructor
  · decide
  · have h := C3_commit_forces_wal false [5] [⟨1, 2⟩] []
      ⟨4, TransactionState.GROWING, {⟨1, 2⟩}, ∅⟩ [] 3 0
      { txn := ⟨4, TransactionState.ABORTED, {⟨1, 2⟩}, ∅⟩,
        table := [], commitLsn := 3, nextLsn := 4, persistentLsn := 5,
        appliedDeletes := [],
        events := [CommitEvent.waitFlush 5, CommitEvent.releaseLock ⟨1, 2⟩] }
      (by decide)
    exact h

/-! ### C7: log-record serialization round trip -/

theorem natToBytesLE_length (n u : Nat) : (natToBytesLE n u).length = n := by
  induction n generalizing u with
  | zero => rfl
  | succ n ih => simp [natToBytesLE, ih]

theorem encode32_length (v : Int) : (encode32 v).length = 4 :=
  natToBytesLE_length 4 _

theorem bytesToNatLE_natToBytesLE (n u : Nat) :
    bytesToNatLE (natToBytesLE n u) = u % 2 ^ (8 * n) := by
  induction n generalizing u with
  | zero =>
      simp only [natToBytesLE, bytesToNatLE, Nat.mul_zero, pow_zero]
      omega
  | succ n ih =>
      have hpow : (2 : Nat) ^ (8 * (n + 1)) = 256 * 2 ^ (8 * n) := by
        rw [Nat.mul_succ, pow_add]
        ring
      rw [natToBytesLE, bytesToNatLE, ih, hpow]
      have h1 := Nat.div_add_mod (u % (256 * 2 ^ (8 * n))) 256
      rw [Nat.mod_mul_right_div_self, Nat.mod_mul_right_mod] at h1
      omega

theorem decode32_encode32 (v : Int) (h1 : -(2 ^ 31) ≤ v) (h2 : v < 2 ^ 31) :
    decode32 (encode32 v) = v := by
  unfold decode32 encode32
  rw [bytesToNatLE_natToBytesLE]
  dsimp only []
  split <;> omega

theorem take_len_append {α : Type} (a b : List α) (n : Nat) (h : a.length = n) :
    (a ++ b).take n = a := by
  subst h
  exact List.take_left a b

theorem drop_len_append {α : Type} (a b : List α) (n : Nat) (h : a.length = n) :
    (a ++ b).drop n = b := by
  subst h
  exact List.drop_left a b

theorem readBytes_head (a b : List Nat) (h : a.length = 4) :
    readBytes (a ++ b) 0 4 = a := by
  unfold readBytes
  rw [List.drop_zero]
  exact take_len_append a b 4 h

/-- A tuple serialization round-trips. -/
theorem tuple_deserialize_serialize (t : Tuple) (rest : List Nat)
    (hlen : (t.data.length : Int) < 2 ^ 31) :
    Tuple.deserializeFrom (t.serialize ++ rest) = t := by
  unfold Tuple.deserializeFrom Tuple.serialize
  rw [List.append_assoc]
  have hd : decode32 (readBytes (encode32 (t.data.length : Int) ++ (t.data ++ rest)) 0 4) =
      (t.data.length : Int) := by
    rw [readBytes_head _ _ (encode32_length _)]
    exact decode32_encode32 _ (by omega) hlen
  rw [hd]
  unfold readBytes
  rw [drop_len_append _ _ 4 (encode32_length _)]
  rw [Int.toNat_natCast]
  rw [take_len_append t.data rest _ rfl]

/-- The two's-complement range of a 32-bit field. -/
def int32Range (v : Int) : Prop := -(2 ^ 31) ≤ v ∧ v < 2 ^ 31

theorem drop4_plus (a b : List Nat) (n : Nat) (h : a.length = 4) :
    (a ++ b).drop (4 + n) = b.drop n := by
  rw [← h]
  exact List.drop_append n

theorem drop4_append (a b : List Nat) (h : a.length = 4) : (a ++ b).drop 4 = b :=
  drop_len_append a b 4 h

theorem readBytes_cons (a b : List Nat) (off len : Nat) (h : a.length = 4) :
    readBytes (a ++ b) (4 + off) len = readBytes b off len := by
  unfold readBytes
  rw [drop4_plus a b off h]

theorem rid_deserialize_serialize (r : RID) (rest : List Nat)
    (h1 : int32Range r.pageId) (h2 : int32Range r.slot) :
    RID.deserializeFrom (r.serialize ++ rest) = r := by
  unfold RID.deserializeFrom RID.serialize
  rw [List.append_assoc]
  have ha : readBytes (encode32 r.pageId ++ (encode32 r.slot ++ rest)) 0 4 =
      encode32 r.pageId := readBytes_head _ _ (encode32_length _)
  have hb : readBytes (encode32 r.pageId ++ (encode32 r.slot ++ rest)) 4 4 =
      encode32 r.slot := by
    unfold readBytes
    rw [drop4_append _ _ (encode32_length _),
        take_len_append _ _ _ (encode32_length _)]
  rw [ha, hb, decode32_encode32 _ h1.1 h1.2, decode32_encode32 _ h2.1 h2.2]

theorem rid_serialize_length (r : RID) : r.serialize.length = 8 := by
  unfold RID.serialize
  rw [List.length_append, encode32_length, encode32_length]

theorem tuple_serialize_length (t : Tuple) :
    t.serialize.length = 4 + t.data.length := by
  unfold Tuple.serialize
  rw [List.length_append, encode32_length]

theorem drop8_rid (r : RID) (b : List Nat) : (r.serialize ++ b).drop 8 = b :=
  drop_len_append _ _ 8 (rid_serialize_length r)

theorem drop8_rid_plus (r : RID) (b : List Nat) (n : Nat) :
    (r.serialize ++ b).drop (8 + n) = b.drop n := by
  rw [← rid_serialize_length r]
  exact List.drop_append n

theorem LogRecordType.ofCode_code (ty : LogRecordType) :
    LogRecordType.ofCode ty.code = ty := by
  cases ty <;> rfl

theorem LogRecordType.code_range (ty : LogRecordType) : int32Range ty.code := by
  cases ty <;> exact ⟨by norm_num [LogRecordType.code], by norm_num [LogRecordType.code]⟩

/-- The per-type payload fields that the claim calls "the same payload". -/
def LogRecord.payloadEq (a b : LogRecord) : Prop :=
  match a.type with
  | .INSERT => b.insertRid = a.insertRid ∧ b.insertTuple = a.insertTuple
  | .UPDATE => b.updateRid = a.updateRid ∧ b.oldTuple = a.oldTuple ∧
      b.newTuple = a.newTuple
  | .NEWPAGE => b.prevPageId = a.prevPageId
  | .APPLYDELETE => b.deleteRid = a.deleteRid ∧ b.deleteTuple = a.deleteTuple
  | .MARKDELETE => b.deleteRid = a.deleteRid ∧ b.deleteTuple = a.deleteTuple
  | .ROLLBACKDELETE => b.deleteRid = a.deleteRid ∧ b.deleteTuple = a.deleteTuple
  | _ => True

theorem stream_reads (sz ls tx pv : Int) (ty : LogRecordType) (p : List Nat) :
    readBytes (encode32 sz ++ (encode32 ls ++ (encode32 tx ++
        (encode32 pv ++ (encode32 ty.code ++ p))))) 0 4 = encode32 sz ∧
    readBytes (encode32 sz ++ (encode32 ls ++ (encode32 tx ++
        (encode32 pv ++ (encode32 ty.code ++ p))))) 4 4 = encode32 ls ∧
    readBytes (encode32 sz ++ (encode32 ls ++ (encode32 tx ++
        (encode32 pv ++ (encode32 ty.code ++ p))))) 8 4 = encode32 tx ∧
    readBytes (encode32 sz ++ (encode32 ls ++ (encode32 tx ++
        (encode32 pv ++ (encode32 ty.code ++ p))))) 12 4 = encode32 pv ∧
    readBytes (encode32 sz ++ (encode32 ls ++ (encode32 tx ++
        (encode32 pv ++ (encode32 ty.code ++ p))))) 16 4 = encode32 ty.code ∧
    (encode32 sz ++ (encode32 ls ++ (encode32 tx ++
        (encode32 pv ++ (encode32 ty.code ++ p))))).drop 20 = p := by
  refine ⟨readBytes_head _ _ (encode32_length _), ?_, ?_, ?_, ?_, ?_⟩
  · rw [show (4 : Nat) = 4 + 0 from rfl, readBytes_cons _ _ _ _ (encode32_length _)]
    exact readBytes_head _ _ (encode32_length _)
  · rw [show (8 : Nat) = 4 + 4 from rfl, readBytes_cons _ _ _ _ (encode32_length _),
        show (4 : Nat) = 4 + 0 from rfl, readBytes_cons _ _ _ _ (encode32_length _)]
    exact readBytes_head _ _ (encode32_length _)
  · rw [show (12 : Nat) = 4 + 8 from rfl, readBytes_cons _ _ _ _ (encode32_length _),
        show (8 : Nat) = 4 + 4 from rfl, readBytes_cons _ _ _ _ (encode32_length _),
        show (4 : Nat) = 4 + 0 from rfl, readBytes_cons _ _ _ _ (encode32_length _)]
    exact readBytes_head _ _ (encode32_length _)
  · rw [show (16 : Nat) = 4 + 12 from rfl, readBytes_cons _ _ _ _ (encode32_length _),
        show (12 : Nat) = 4 + 8 from rfl, readBytes_cons _ _ _ _ (encode32_length _),
        show (8 : Nat) = 4 + 4 from rfl, readBytes_cons _ _ _ _ (encode32_length _),
        show (4 : Nat) = 4 + 0 from rfl, readBytes_cons _ _ _ _ (encode32_length _)]
    exact readBytes_head _ _ (encode32_length _)
  · rw [show (20 : Nat) = 4 + 16 from rfl, drop4_plus _ _ _ (encode32_length _),
        show (16 : Nat) = 4 + 12 from rfl, drop4_plus _ _ _ (encode32_length _),
        show (12 : Nat) = 4 + 8 from rfl, drop4_plus _ _ _ (encode32_length _),
        show (8 : Nat) = 4 + 4 from rfl, drop4_plus _ _ _ (encode32_length _),
        drop4_append _ _ (encode32_length _)]

/-- C7: For every log record of any type, serializing it into the log
buffer with AppendLogRecord and then deserializing those bytes with
DeserializeLogRecord yields a record with the same header fields (size,
lsn, txn_id, prev_lsn, type — the lsn being the one AppendLogRecord
assigns) and the same payload. -/
theorem C7_log_record_roundtrip (bufSize : Nat) (nextLsn : Int) (r : LogRecord)
    (hsize : r.size = 20 + (r.serializePayload.length : Int))
    (hfit : r.size ≤ (bufSize : Int))
    (hr1 : int32Range r.size) (hr2 : int32Range nextLsn)
    (hr3 : int32Range r.txnId) (hr4 : int32Range r.prevLsn)
    (hr5 : int32Range r.insertRid.pageId) (hr6 : int32Range r.insertRid.slot)
    (hr7 : int32Range r.deleteRid.pageId) (hr8 : int32Range r.deleteRid.slot)
    (hr9 : int32Range r.updateRid.pageId) (hr10 : int32Range r.updateRid.slot)
    (hr11 : int32Range r.prevPageId)
    (ht1 : (r.insertTuple.data.length : Int) < 2 ^ 31)
    (ht2 : (r.oldTuple.data.length : Int) < 2 ^ 31)
    (ht3 : (r.newTuple.data.length : Int) < 2 ^ 31)
    (ht4 : (r.deleteTuple.data.length : Int) < 2 ^ 31) :
    ∃ r₁, LogRecovery.DeserializeLogRecord bufSize 0
            ((LogManager.AppendLogRecord nextLsn r).1) = some r₁ ∧
      r₁.size = r.size ∧ r₁.lsn = nextLsn ∧ r₁.txnId = r.txnId ∧
      r₁.prevLsn = r.prevLsn ∧ r₁.type = r.type ∧ r.payloadEq r₁ := by
  have hplen : (0 : Int) ≤ (r.serializePayload.length : Int) := by positivity
  have hc1 : ¬(0 + 20 > bufSize) := by omega
  obtain ⟨sz, ls, tx, pv, ty, iRid, iTup, dRid, dTup, uRid, oTup, nTup, pp⟩ := r
  dsimp only [] at hsize hfit hr1 hr3 hr4 hr5 hr6 hr7 hr8 hr9 hr10 hr11
  dsimp only [] at ht1 ht2 ht3 ht4 hplen
  have hc2 : ¬(sz ≤ 0 ∨ ((0 : Nat) : Int) + sz > (bufSize : Int)) := by
    push_neg
    constructor <;> omega
  have hS : (LogManager.AppendLogRecord nextLsn
      ⟨sz, ls, tx, pv, ty, iRid, iTup, dRid, dTup, uRid, oTup, nTup, pp⟩).1 =
      encode32 sz ++ (encode32 nextLsn ++ (encode32 tx ++ (encode32 pv ++
        (encode32 ty.code ++
          (LogRecord.serializePayload
            ⟨sz, ls, tx, pv, ty, iRid, iTup, dRid, dTup, uRid, oTup, nTup, pp⟩))))) := by
    simp [LogManager.AppendLogRecord, LogRecord.serializeHeader,
          LogRecord.serializePayload, List.append_assoc]
  rw [hS]
  obtain ⟨hs0, hs4, hs8, hs12, hs16, hs20⟩ := stream_reads sz nextLsn tx pv ty
    (LogRecord.serializePayload ⟨sz, ls, tx, pv, ty, iRid, iTup, dRid, dTup, uRid, oTup, nTup, pp⟩)
  unfold LogRecovery.DeserializeLogRecord
  rw [if_neg hc1, hs0, hs4, hs8, hs12, hs16, hs20,
      decode32_encode32 sz hr1.1 hr1.2, decode32_encode32 nextLsn hr2.1 hr2.2,
      decode32_encode32 tx hr3.1 hr3.2, decode32_encode32 pv hr4.1 hr4.2,
      decode32_encode32 ty.code (LogRecordType.code_range ty).1
        (LogRecordType.code_range ty).2,
      LogRecordType.ofCode_code]
  dsimp only []
  rw [if_neg hc2]
  have htpe : ∀ t : Tuple, (t.data.length : Int) < 2 ^ 31 →
      Tuple.deserializeFrom t.serialize = t := by
    intro t ht
    have h := tuple_deserialize_serialize t [] ht
    rwa [List.append_nil] at h
  cases ty with
  | INSERT =>
      refine ⟨_, rfl, rfl, rfl, rfl, rfl, rfl, ?_⟩
      unfold LogRecord.payloadEq
      dsimp only [LogRecord.serializePayload]
      exact ⟨rid_deserialize_serialize iRid _ hr5 hr6,
             by rw [drop8_rid]; exact htpe iTup ht1⟩
  | UPDATE =>
      refine ⟨_, rfl, rfl, rfl, rfl, rfl, rfl, ?_⟩
      unfold LogRecord.payloadEq
      dsimp only [LogRecord.serializePayload]
      rw [List.append_assoc]
      rw [drop8_rid uRid (oTup.serialize ++ nTup.serialize),
          tuple_deserialize_serialize oTup nTup.serialize ht2]
      refine ⟨rid_deserialize_serialize uRid _ hr9 hr10, rfl, ?_⟩
      rw [show 8 + 4 + oTup.data.length = 8 + (4 + oTup.data.length) by omega]
      rw [drop8_rid_plus, drop_len_append _ _ _ (tuple_serialize_length oTup)]
      exact htpe nTup ht3
  | NEWPAGE =>
      refine ⟨_, rfl, rfl, rfl, rfl, rfl, rfl, ?_⟩
      unfold LogRecord.payloadEq
      dsimp only [LogRecord.serializePayload]
      rw [show encode32 pp = encode32 pp ++ [] by simp, readBytes_head _ _ (encode32_length _)]
      exact decode32_encode32 pp hr11.1 hr11.2
  | APPLYDELETE =>
      refine ⟨_, rfl, rfl, rfl, rfl, rfl, rfl, ?_⟩
      unfold LogRecord.payloadEq
      dsimp only [LogRecord.serializePayload]
      exact ⟨rid_deserialize_serialize dRid _ hr7 hr8,
             by rw [drop8_rid]; exact htpe dTup ht4⟩
  | MARKDELETE =>
      refine ⟨_, rfl, rfl, rfl, rfl, rfl, rfl, ?_⟩
      unfold LogRecord.payloadEq
      dsimp only [LogRecord.serializePayload]
      exact ⟨rid_deserialize_serialize dRid _ hr7 hr8,
             by rw [drop8_rid]; exact htpe dTup ht4⟩
  | ROLLBACKDELETE =>
      refine ⟨_, rfl, rfl, rfl, rfl, rfl, rfl, ?_⟩
      unfold LogRecord.payloadEq
      dsimp only [LogRecord.serializePayload]
      exact ⟨rid_deserialize_serialize dRid _ hr7 hr8,
             by rw [drop8_rid]; exact htpe dTup ht4⟩
  | INVALID =>
      exact ⟨_, rfl, rfl, rfl, rfl, rfl, rfl, by unfold LogRecord.payloadEq; trivial⟩
  | BEGIN =>
      exact ⟨_, rfl, rfl, rfl, rfl, rfl, rfl, by unfold LogRecord.payloadEq; trivial⟩
  | COMMIT =>
      exact ⟨_, rfl, rfl, rfl, rfl, rfl, rfl, by unfold LogRecord.payloadEq; trivial⟩
  | ABORT =>
      exact ⟨_, rfl, rfl, rfl, rfl, rfl, rfl, by unfold LogRecord.payloadEq; trivial⟩

/-- A concrete INSERT record for the C7 witness: header 20 + RID 8 +
tuple (4 + 2) = 34 bytes. -/
def c7Rec : LogRecord :=
  { size := 34, lsn := INVALID_LSN, txnId := 2, prevLsn := 1,
    type := LogRecordType.INSERT, insertRid := ⟨7, 3⟩, insertTuple := ⟨[5, 6]⟩ }

/-- Witness for C7 at a concrete input. -/
theorem C7_log_record_roundtrip_witness :
    c7Rec.size = 20 + (c7Rec.serializePayload.length : Int) ∧
    ∃ r₁, LogRecovery.DeserializeLogRecord 4096 0
            ((LogManager.AppendLogRecord 3 c7Rec).1) = some r₁ ∧
      r₁.size = c7Rec.size ∧ r₁.lsn = 3 ∧ r₁.txnId = c7Rec.txnId ∧
      r₁.prevLsn = c7Rec.prevLsn ∧ r₁.type = c7Rec.type ∧ c7Rec.payloadEq r₁ :=
  ⟨by decide,
   C7_log_record_roundtrip 4096 3 c7Rec (by decide) (by decide)
     ⟨by decide, by decide⟩ ⟨by decide, by decide⟩ ⟨by decide, by decide⟩
     ⟨by decide, by decide⟩ ⟨by decide, by decide⟩ ⟨by decide, by decide⟩
     ⟨by decide, by decide⟩ ⟨by decide, by decide⟩ ⟨by decide, by decide⟩
     ⟨by decide, by decide⟩ ⟨by decide, by decide⟩
     (by decide) (by decide) (by decide) (by decide)⟩

/-! ### C8: the lock-table invariant -/

/-- Every lock-table entry has a non-empty granted set; an EXCLUSIVE
entry has exactly one holder. -/
def LockInv (t : LockTable) : Prop :=
  ∀ rid g, alookup t rid = some g →
    g.granted_set.Nonempty ∧
    (g.lockType = LockType.EXCLUSIVE → g.granted_set.card = 1)

/-- The lock table a lock call leaves behind (at return or at the moment
it blocks). -/
def resultTable : LockResult → LockTable
  | .ret _ _ t => t
  | .wait _ t => t

/-- Any state-mutating step of the lock manager: a lock call running up to
its return or its blocking point, a post-wakeup continuation, or an
unlock. -/
inductive LockStep (strict : Bool) : LockTable → LockTable → Prop where
  | shared (t t₁ : LockTable) (txn : Transaction) (rid : RID)
      (h : resultTable (LockManager.LockShared t txn rid) = t₁) :
      LockStep strict t t₁
  | sharedResume (t t₁ : LockTable) (txn : Transaction) (rid : RID)
      (ok : Bool) (txn₁ : Transaction)
      (h : LockManager.LockSharedResume t txn rid = some (ok, txn₁, t₁)) :
      LockStep strict t t₁
  | exclusive (t t₁ : LockTable) (txn : Transaction) (rid : RID)
      (h : resultTable (LockManager.LockExclusive t txn rid) = t₁) :
      LockStep strict t t₁
  | exclusiveResume (t t₁ : LockTable) (txn : Transaction) (rid : RID)
      (h : (LockManager.LockExclusiveResume t txn rid).2.2 = t₁) :
      LockStep strict t t₁
  | upgrade (t t₁ : LockTable) (txn : Transaction) (rid : RID)
      (h : resultTable (LockManager.LockUpgrade t txn rid) = t₁) :
      LockStep strict t t₁
  | upgradeResume (t t₁ : LockTable) (txn : Transaction) (rid : RID)
      (h : (LockManager.LockUpgradeResume t txn rid).2.2 = t₁) :
      LockStep strict t t₁
  | unlock (t t₁ : LockTable) (txn : Transaction) (rid : RID)
      (h : (LockManager.Unlock strict t txn rid).2.2 = t₁) :
      LockStep strict t t₁

theorem lockInv_aset (t : LockTable) (rid : RID) (g : GrantedTxns)
    (hInv : LockInv t) (h1 : g.granted_set.Nonempty)
    (h2 : g.lockType = LockType.EXCLUSIVE → g.granted_set.card = 1) :
    LockInv (aset t rid g) := by
  intro r x hx
  rw [alookup_aset] at hx
  by_cases hr : rid = r
  · rw [if_pos hr] at hx
    cases hx
    exact ⟨h1, h2⟩
  · rw [if_neg hr] at hx
    exact hInv r x hx

theorem lockInv_aerase (t : LockTable) (rid : RID) (hInv : LockInv t) :
    LockInv (aerase t rid) := by
  intro r x hx
  rw [alookup_aerase] at hx
  by_cases hr : rid = r
  · rw [if_pos hr] at hx; cases hx
  · rw [if_neg hr] at hx
    exact hInv r x hx

theorem LockShared_inv (t : LockTable) (txn : Transaction) (rid : RID)
    (hInv : LockInv t) :
    LockInv (resultTable (LockManager.LockShared t txn rid)) := by
  unfold LockManager.LockShared LockManager.TxnStateValidForLock
  by_cases hs : txn.state ≠ TransactionState.GROWING
  · simp only [if_pos hs]
    exact hInv
  · simp only [if_neg hs]
    cases halook : alookup t rid with
    | none =>
        simp only [resultTable]
        exact lockInv_aset t rid _ hInv (by simp) (by simp)
    | some g =>
        by_cases hx : g.lockType = LockType.EXCLUSIVE
        · by_cases hmin : g.minHolder ≤ txn.txnId
          · simp only [if_pos hx, if_pos hmin, resultTable]
            exact hInv
          · simp only [if_pos hx, if_neg hmin, resultTable]
            exact hInv
        · simp only [if_neg hx, resultTable]
          refine lockInv_aset t rid _ hInv ?_ ?_
          · exact ⟨txn.txnId, by simp⟩
          · intro hcontra; exact absurd hcontra hx

theorem LockSharedResume_inv (t : LockTable) (txn : Transaction) (rid : RID)
    (ok : Bool) (txn₁ : Transaction) (t₁ : LockTable) (hInv : LockInv t)
    (h : LockManager.LockSharedResume t txn rid = some (ok, txn₁, t₁)) :
    LockInv t₁ := by
  unfold LockManager.LockSharedResume at h
  cases halook : alookup t rid with
  | none =>
      rw [halook] at h
      simp only [Option.some.injEq, Prod.mk.injEq] at h
      rw [← h.2.2]
      exact lockInv_aset t rid _ hInv (by simp) (by simp)
  | some g =>
      rw [halook] at h
      dsimp only [] at h
      by_cases hx : g.lockType = LockType.SHARED
      · rw [if_pos hx] at h
        simp only [Option.some.injEq, Prod.mk.injEq] at h
        rw [← h.2.2]
        refine lockInv_aset t rid _ hInv ⟨txn.txnId, by simp⟩ ?_
        intro hcontra
        rw [hx] at hcontra
        cases hcontra
      · rw [if_neg hx] at h
        cases h

theorem LockExclusive_inv (t : LockTable) (txn : Transaction) (rid : RID)
    (hInv : LockInv t) :
    LockInv (resultTable (LockManager.LockExclusive t txn rid)) := by
  unfold LockManager.LockExclusive LockManager.TxnStateValidForLock
  by_cases hs : txn.state ≠ TransactionState.GROWING
  · simp only [if_pos hs]
    exact hInv
  · simp only [if_neg hs]
    cases halook : alookup t rid with
    | none =>
        simp only [resultTable]
        exact lockInv_aset t rid _ hInv (by simp) (by simp)
    | some g =>
        by_cases hmin : g.minHolder ≤ txn.txnId
        · simp only [if_pos hmin, resultTable]; exact hInv
        · simp only [if_neg hmin, resultTable]; exact hInv

theorem LockExclusiveResume_inv (t : LockTable) (txn : Transaction) (rid : RID)
    (hInv : LockInv t) :
    LockInv (LockManager.LockExclusiveResume t txn rid).2.2 := by
  unfold LockManager.LockExclusiveResume
  exact lockInv_aset t rid _ hInv (by simp) (by simp)

theorem LockUpgrade_inv (t : LockTable) (txn : Transaction) (rid : RID)
    (hInv : LockInv t) :
    LockInv (resultTable (LockManager.LockUpgrade t txn rid)) := by
  unfold LockManager.LockUpgrade LockManager.TxnStateValidForLock
  by_cases hs : txn.state ≠ TransactionState.GROWING
  · simp only [if_pos hs]; exact hInv
  · simp only [if_neg hs]
    cases halook : alookup t rid with
    | none => simp only [resultTable]; exact hInv
    | some g =>
        by_cases hbad : g.lockType ≠ LockType.SHARED ∨ txn.txnId ∉ g.granted_set
        · simp only [if_pos hbad, resultTable]; exact hInv
        · simp only [if_neg hbad]
          push_neg at hbad
          obtain ⟨hshared, hmem⟩ := hbad
          by_cases hemp : g.granted_set.erase txn.txnId = ∅
          · simp only [if_pos hemp, resultTable]
            exact lockInv_aset t rid _ hInv (by simp) (by simp)
          · simp only [if_neg hemp]
            have hinner : LockInv (aset t rid { g with granted_set := g.granted_set.erase txn.txnId }) := by
              refine lockInv_aset t rid _ hInv (Finset.nonempty_iff_ne_empty.mpr hemp) ?_
              intro hcontra
              rw [hshared] at hcontra
              cases hcontra
            by_cases hmin : (⟨g.lockType, g.granted_set.erase txn.txnId⟩ : GrantedTxns).minHolder ≤ txn.txnId
            · simp only [if_pos hmin, resultTable]
              exact hinner
            · simp only [if_neg hmin, resultTable]
              exact hinner

theorem LockUpgradeResume_inv (t : LockTable) (txn : Transaction) (rid : RID)
    (hInv : LockInv t) :
    LockInv (LockManager.LockUpgradeResume t txn rid).2.2 := by
  unfold LockManager.LockUpgradeResume
  exact lockInv_aset t rid _ hInv (by simp) (by simp)

theorem Unlock_inv (strict : Bool) (t : LockTable) (txn : Transaction) (rid : RID)
    (hInv : LockInv t) :
    LockInv (LockManager.Unlock strict t txn rid).2.2 := by
  unfold LockManager.Unlock
  by_cases hs : strict = true ∧ ¬(txn.state = TransactionState.COMMITTED
      ∨ txn.state = TransactionState.ABORTED)
  · simp only [if_pos hs]; exact hInv
  · simp only [if_neg hs]
    cases halook : alookup t rid with
    | none => exact hInv
    | some g =>
        by_cases hmem : txn.txnId ∉ g.granted_set
        · simp only [if_pos hmem]; exact hInv
        · simp only [if_neg hmem]
          push_neg at hmem
          by_cases hemp : g.granted_set.erase txn.txnId = ∅
          · simp only [if_pos hemp]
            exact lockInv_aerase t rid hInv
          · simp only [if_neg hemp]
            refine lockInv_aset t rid _ hInv (Finset.nonempty_iff_ne_empty.mpr hemp) ?_
            intro hexcl
            obtain ⟨hne, hcard⟩ := hInv rid g halook
            have hone := hcard hexcl
            obtain ⟨a, ha⟩ := Finset.card_eq_one.mp hone
            rw [ha] at hmem
            have : txn.txnId = a := Finset.mem_singleton.mp hmem
            rw [ha, this] at hemp
            simp at hemp

/-- C8: In every reachable state of the lock manager, for every rid
present in the lock table the granted set is non-empty, and if the
entry's lock type is EXCLUSIVE the granted set contains exactly one
transaction id; every operation (lock_shared, lock_exclusive,
lock_upgrade, unlock) preserves this. -/
theorem LockStep_inv (strict : Bool) (a b : LockTable)
    (h : LockStep strict a b) (hInv : LockInv a) : LockInv b := by
  cases h with
  | shared txn rid hh => rw [← hh]; exact LockShared_inv a txn rid hInv
  | sharedResume txn rid ok txn₁ hh =>
      exact LockSharedResume_inv a txn rid ok txn₁ b hInv hh
  | exclusive txn rid hh => rw [← hh]; exact LockExclusive_inv a txn rid hInv
  | exclusiveResume txn rid hh =>
      rw [← hh]; exact LockExclusiveResume_inv a txn rid hInv
  | upgrade txn rid hh => rw [← hh]; exact LockUpgrade_inv a txn rid hInv
  | upgradeResume txn rid hh =>
      rw [← hh]; exact LockUpgradeResume_inv a txn rid hInv
  | unlock txn rid hh => rw [← hh]; exact Unlock_inv strict a txn rid hInv

theorem C8_lock_table_invariant (strict : Bool) (t : LockTable)
    (h : Relation.ReflTransGen (LockStep strict) [] t) : LockInv t := by
  induction h with
  | refl => intro rid g hg; cases hg
  | tail hsteps hstep ih =>
      exact LockStep_inv strict _ _ hstep ih

/-- Witness for C8 at a concrete input: the state reached from the empty
lock table by one successful `LockExclusive` satisfies the invariant. -/
theorem C8_lock_table_invariant_witness :
    Relation.ReflTransGen (LockStep false) []
        [((⟨1, 2⟩ : RID), (⟨LockType.EXCLUSIVE, {4}⟩ : GrantedTxns))] ∧
    LockInv [((⟨1, 2⟩ : RID), (⟨LockType.EXCLUSIVE, {4}⟩ : GrantedTxns))] := by
  have hstep : LockStep false []
      [((⟨1, 2⟩ : RID), (⟨LockType.EXCLUSIVE, {4}⟩ : GrantedTxns))] :=
    LockStep.exclusive [] [(⟨1, 2⟩, ⟨LockType.EXCLUSIVE, {4}⟩)]
      ⟨4, TransactionState.GROWING, ∅, ∅⟩ ⟨1, 2⟩ (by decide)
  exact ⟨Relation.ReflTransGen.single hstep,
         C8_lock_table_invariant false _ (Relation.ReflTransGen.single hstep)⟩

/-! ### C1: coalesce-or-redistribute decision -/

theorem valueIndexAux_spec (l : List (Nat × Int)) (v : Int) (base j : Nat)
    (h : valueIndexAux l v base = some j) :
    base ≤ j ∧ j - base < l.length ∧ (l.getD (j - base) (0, 0)).2 = v := by
  induction l generalizing base with
  | nil => cases h
  | cons e rest ih =>
      by_cases he : e.2 = v
      · rw [valueIndexAux, if_pos he] at h
        cases h
        simp [he]
      · rw [valueIndexAux, if_neg he] at h
        obtain ⟨h1, h2, h3⟩ := ih (base + 1) h
        refine ⟨by omega, by simp; omega, ?_⟩
        have hj : j - base = (j - (base + 1)) + 1 := by omega
        rw [hj]
        simpa using h3

theorem BPage.ValueIndex_spec (p : BPage) (v : Int) (j : Nat)
    (h : p.ValueIndex v = some j) :
    j < p.entries.length ∧ (p.entries.getD j (0, 0)).2 = v := by
  obtain ⟨h1, h2, h3⟩ := valueIndexAux_spec p.entries v 0 j h
  rw [Nat.sub_zero] at h2 h3
  exact ⟨h2, h3⟩

theorem removeAt_length (l : List (Nat × Int)) (i : Nat) (h : i < l.length) :
    (removeAt l i).length = l.length - 1 := by
  simp only [removeAt, List.length_append, List.length_take, List.length_drop]
  omega

/-- The claim's (spec's) coalesce condition, written from the spec's
words for comparison with the source:
"If `sibling.size + node.size ≤ max_size`, coalesce". -/
def specShouldCoalesce (siblingSize nodeSize maxSize : Nat) : Bool :=
  siblingSize + nodeSize ≤ maxSize

/-- A three-page tree (internal root 1 over leaves 10 and 11, all pages
with `max_size = 4`, so `min_size = 2`): leaf 10 holds three entries,
leaf 11 holds two. -/
def c1Tree : BPlusTree :=
  { rootPageId := 1,
    pages :=
      [(1, { isLeaf := false, pageId := 1, parentPageId := INVALID_PAGE_ID,
             entries := [(0, 10), (20, 11)], nextPageId := INVALID_PAGE_ID,
             maxSize := 4 }),
       (10, { isLeaf := true, pageId := 10, parentPageId := 1,
              entries := [(1, 100), (2, 101), (3, 102)], nextPageId := 11,
              maxSize := 4 }),
       (11, { isLeaf := true, pageId := 11, parentPageId := 1,
              entries := [(20, 103), (25, 104)], nextPageId := INVALID_PAGE_ID,
              maxSize := 4 })],
    nextNewPageId := 12, leafMaxSize := 4, internalMaxSize := 4 }

/-- The tree left by `Remove(25)`: the leaves were rebalanced by moving
one entry, not merged. -/
def c1After : BPlusTree :=
  { rootPageId := 1,
    pages :=
      [(1, { isLeaf := false, pageId := 1, parentPageId := INVALID_PAGE_ID,
             entries := [(0, 10), (3, 11)], nextPageId := INVALID_PAGE_ID,
             maxSize := 4 }),
       (10, { isLeaf := true, pageId := 10, parentPageId := 1,
              entries := [(1, 100), (2, 101)], nextPageId := 11,
              maxSize := 4 }),
       (11, { isLeaf := true, pageId := 11, parentPageId := 1,
              entries := [(3, 102), (20, 103)], nextPageId := INVALID_PAGE_ID,
              maxSize := 4 })],
    nextNewPageId := 12, leafMaxSize := 4, internalMaxSize := 4 }

/-- C1 counterexample: removing key 25 leaves leaf 11 with one entry
(under `min_size = 2`); its sibling leaf 10 has three entries, so
`sibling.size + node.size = 4 ≤ max_size = 4` and the claim demands a
coalesce — but the code (whose condition is
`sibling.size ≤ sibling.min_size`, i.e. `3 ≤ 2`) redistributes one entry
instead: both leaves survive with two entries each. -/
theorem C1_counterexample :
    specShouldCoalesce 3 1 4 = true ∧
    BPlusTree.Remove c1Tree 25 = some c1After ∧
    (alookup c1After.pages 10).map (fun p => p.entries.length) = some 2 ∧
    (alookup c1After.pages 11).map (fun p => p.entries.length) = some 2 := by
  refine ⟨by decide, by decide, by decide, by decide⟩

/-- C1 amended: for every removal that leaves a non-root leaf under
min_size, the tree coalesces the page with its chosen adjacent sibling
exactly when `sibling.size ≤ sibling.min_size` — merging into the left
of the two (roles swapped when the node is leftmost, in which case the
sibling's page is deleted; otherwise the node is emptied and deleted by
the caller) — and otherwise redistributes exactly one entry from the
sibling (its first entry to the node's end when the node is leftmost,
else its last entry to the node's front). -/
theorem C1_amended_rebalance
    (t : BPlusTree) (nodeId : PageId) (node parent sibling : BPage)
    (sibEntry : Nat × Int) (nodeIndex : Nat) (fuel : Nat)
    (hnode : alookup t.pages nodeId = some node)
    (hnid : node.pageId = nodeId)
    (hleaf : node.isLeaf = true)
    (hnotroot : node.parentPageId ≠ INVALID_PAGE_ID)
    (hparent : alookup t.pages node.parentPageId = some parent)
    (hpid : parent.pageId = node.parentPageId)
    (hvidx : parent.ValueIndex nodeId = some nodeIndex)
    (hsentry : parent.entries[(if nodeIndex = 0 then 1 else nodeIndex - 1)]? = some sibEntry)
    (hsib : alookup t.pages sibEntry.2 = some sibling)
    (hsid : sibling.pageId = sibEntry.2)
    (hsibleaf : sibling.isLeaf = true)
    (hsibparent : sibling.parentPageId = node.parentPageId)
    (hsibne : sibling.entries ≠ [])
    (hd1 : nodeId ≠ node.parentPageId)
    (hd2 : sibEntry.2 ≠ node.parentPageId)
    (hd3 : sibEntry.2 ≠ nodeId)
    (hnocascade : parent.minSize ≤ parent.entries.length - 1) :
    ∃ t' ret, CoalesceOrRedistribute (fuel + 2) t nodeId = some (t', ret) ∧
      (sibling.entries.length ≤ sibling.minSize →
        (nodeIndex = 0 →
          alookup t'.pages nodeId =
            some { node with entries := node.entries ++ sibling.entries,
                             nextPageId := sibling.nextPageId } ∧
          alookup t'.pages sibEntry.2 = none ∧ ret = false) ∧
        (nodeIndex ≠ 0 →
          alookup t'.pages sibEntry.2 =
            some { sibling with entries := sibling.entries ++ node.entries,
                                nextPageId := node.nextPageId } ∧
          alookup t'.pages nodeId = some { node with entries := [] } ∧
          ret = true)) ∧
      (sibling.minSize < sibling.entries.length →
        ret = false ∧
        (nodeIndex = 0 →
          ∃ e es, sibling.entries = e :: es ∧
            alookup t'.pages nodeId =
              some { node with entries := node.entries ++ [e] } ∧
            alookup t'.pages sibEntry.2 = some { sibling with entries := es }) ∧
        (nodeIndex ≠ 0 →
          ∃ e, sibling.entries.getLast? = some e ∧
            alookup t'.pages nodeId =
              some { node with entries := e :: node.entries } ∧
            alookup t'.pages sibEntry.2 =
              some { sibling with entries := sibling.entries.dropLast })) := by
  have hroot : node.IsRootPage = false := by
    simp [BPage.IsRootPage, hnotroot]
  obtain ⟨hvlt, hvval⟩ := BPage.ValueIndex_spec parent nodeId nodeIndex hvidx
  have hselt : (if nodeIndex = 0 then 1 else nodeIndex - 1) < parent.entries.length := by
    by_contra hcon
    rw [List.getElem?_eq_none (by omega)] at hsentry
    cases hsentry
  have hidxlt : (if nodeIndex = 0 then 1 else nodeIndex) < parent.entries.length := by
    split at hselt <;> split <;> omega
  unfold CoalesceOrRedistribute
  rw [hnode]
  dsimp only []
  rw [hroot, if_neg (by simp)]
  rw [hparent]
  dsimp only []
  rw [hvidx]
  dsimp only []
  rw [hsentry]
  dsimp only []
  rw [hsib]
  dsimp only []
  by_cases hc : sibling.entries.length ≤ sibling.minSize
  · -- coalesce path
    rw [if_pos hc]
    by_cases hix : nodeIndex = 0
    · -- node is leftmost: roles swapped, sibling merges INTO node
      subst hix
      have hstep : CoalesceStep t sibEntry.2 nodeId node.parentPageId 0 =
          some ({ t with
                    pages := aset (aset (aset t.pages sibEntry.2
                               { sibling with entries := [] }) nodeId
                               { node with entries := node.entries ++ sibling.entries,
                                           nextPageId := sibling.nextPageId })
                               node.parentPageId (parent.internalRemove 1) },
                parent.internalRemove 1) := by
        unfold CoalesceStep
        dsimp only []
        rw [show (if (0 : Nat) = 0 then (sibEntry.2, nodeId, 1)
              else (nodeId, sibEntry.2, 0)) = (sibEntry.2, nodeId, 1) from rfl]
        dsimp only []
        rw [hsib, hnode]
        dsimp only []
        rw [if_pos hsibleaf]
        dsimp only [leafMoveAllTo]
        rw [hsid, hnid, alookup_aset, if_neg hd1, alookup_aset,
            if_neg hd2, hparent]
      rw [hstep]
      dsimp only []
      have hlen1 : (parent.internalRemove 1).entries.length =
          parent.entries.length - 1 := by
        unfold BPage.internalRemove
        exact removeAt_length _ _ (by simpa using hselt)
      have hno : ¬((parent.internalRemove 1).entries.length <
          (parent.internalRemove 1).minSize) := by
        have hms : (parent.internalRemove 1).minSize = parent.minSize := rfl
        rw [hlen1, hms]
        omega
      rw [if_neg hno]
      dsimp only []
      rw [if_pos rfl, if_neg (by simp)]
      refine ⟨_, _, rfl, fun _ => ⟨fun _ => ⟨?_, ?_, by decide⟩,
              fun hne0 => absurd rfl hne0⟩, fun hlt => absurd hc (by omega)⟩
      · rw [alookup_aerase, if_neg hd3, alookup_aset, if_neg (Ne.symm hd1),
            alookup_aset, if_pos rfl]
      · rw [alookup_aerase, if_pos rfl]
    · -- node has a left sibling: node merges INTO the sibling
      have hstep : CoalesceStep t sibEntry.2 nodeId node.parentPageId nodeIndex =
          some ({ t with
                    pages := aset (aset (aset t.pages nodeId
                               { node with entries := [] }) sibEntry.2
                               { sibling with entries := sibling.entries ++ node.entries,
                                              nextPageId := node.nextPageId })
                               node.parentPageId (parent.internalRemove nodeIndex) },
                parent.internalRemove nodeIndex) := by
        unfold CoalesceStep
        dsimp only []
        rw [if_neg hix]
        dsimp only []
        rw [hnode, hsib]
        dsimp only []
        rw [if_pos hleaf]
        dsimp only [leafMoveAllTo]
        rw [hnid, hsid, alookup_aset, if_neg hd2, alookup_aset,
            if_neg hd1, hparent]
      rw [hstep]
      dsimp only []
      have hlen1 : (parent.internalRemove nodeIndex).entries.length =
          parent.entries.length - 1 := by
        unfold BPage.internalRemove
        exact removeAt_length _ _ (by omega)
      have hno : ¬((parent.internalRemove nodeIndex).entries.length <
          (parent.internalRemove nodeIndex).minSize) := by
        have hms : (parent.internalRemove nodeIndex).minSize = parent.minSize := rfl
        rw [hlen1, hms]
        omega
      rw [if_neg hno]
      dsimp only []
      rw [if_neg hix, if_neg (by simp)]
      refine ⟨_, _, rfl, fun _ => ⟨fun h0 => absurd h0 hix, fun _ => ⟨?_, ?_, by simp [hix]⟩⟩,
              fun hlt => absurd hc (by omega)⟩
      · rw [alookup_aset, if_neg (Ne.symm hd2), alookup_aset, if_pos rfl]
      · rw [alookup_aset, if_neg (Ne.symm hd1), alookup_aset, if_neg hd3,
            alookup_aset, if_pos rfl]
  · -- redistribute path
    rw [if_neg hc]
    by_cases hix : nodeIndex = 0
    · -- sibling is the right sibling: move its first entry to node's end
      subst hix
      cases hsplit : sibling.entries with
      | nil => exact absurd hsplit hsibne
      | cons e es =>
          have hred : t.Redistribute sibEntry.2 nodeId 0 =
              some { t with
                       pages := aset (aset (aset t.pages sibEntry.2
                                  { sibling with entries := es }) nodeId
                                  { node with entries := node.entries ++ [e] })
                                  node.parentPageId
                                  { parent with
                                      entries := setKeyAt parent.entries 1
                                                   ((es.getD 0 (0, 0)).1) } } := by
            unfold BPlusTree.Redistribute
            rw [hsib, hnode]
            dsimp only []
            rw [if_pos rfl, if_pos hsibleaf]
            unfold leafMoveFirstToEndOf
            rw [hsplit]
            dsimp only []
            rw [hsibparent, hparent]
            dsimp only []
            rw [hsid, hnid, hpid]
          rw [hred]
          dsimp only []
          refine ⟨_, _, rfl, fun hle => absurd hle (hsplit ▸ hc),
                  fun _ => ⟨rfl, fun _ => ⟨e, es, rfl, ?_, ?_⟩,
                            fun hne0 => absurd rfl hne0⟩⟩
          · rw [alookup_aset, if_neg (Ne.symm hd1), alookup_aset, if_pos rfl]
          · rw [alookup_aset, if_neg (Ne.symm hd2), alookup_aset, if_neg (Ne.symm hd3),
                alookup_aset, if_pos rfl]
    · -- sibling is the left sibling: move its last entry to node's front
      cases hlast : sibling.entries.getLast? with
      | none =>
          rw [List.getLast?_eq_none_iff] at hlast
          exact absurd hlast hsibne
      | some e =>
          have hred : t.Redistribute sibEntry.2 nodeId nodeIndex =
              some { t with
                       pages := aset (aset (aset t.pages sibEntry.2
                                  { sibling with entries := sibling.entries.dropLast })
                                  nodeId
                                  { node with entries := e :: node.entries })
                                  node.parentPageId
                                  { parent with
                                      entries := setKeyAt parent.entries nodeIndex e.1 } } := by
            unfold BPlusTree.Redistribute
            rw [hsib, hnode]
            dsimp only []
            rw [if_neg hix, if_pos hsibleaf]
            unfold leafMoveLastToFrontOf
            rw [hlast]
            dsimp only []
            rw [hsibparent, hparent]
            dsimp only []
            rw [hsid, hnid, hpid]
          rw [hred]
          dsimp only []
          refine ⟨_, _, rfl, fun hle => absurd hle hc,
                  fun _ => ⟨rfl, fun h0 => absurd h0 hix,
                            fun _ => ⟨e, rfl, ?_, ?_⟩⟩⟩
          · rw [alookup_aset, if_neg (Ne.symm hd1), alookup_aset, if_pos rfl]
          · rw [alookup_aset, if_neg (Ne.symm hd2), alookup_aset, if_neg (Ne.symm hd3),
                alookup_aset, if_pos rfl]

/-- A leaf holding a single entry, rebalanced in the witness tree. -/
def c1wNode : BPage :=
  { isLeaf := true, pageId := 11, parentPageId := 1,
    entries := [(20, 103)], nextPageId := 12, maxSize := 4 }

/-- The internal root of the witness tree, with three children. -/
def c1wParent : BPage :=
  { isLeaf := false, pageId := 1, parentPageId := INVALID_PAGE_ID,
    entries := [(0, 10), (20, 11), (40, 12)], nextPageId := INVALID_PAGE_ID,
    maxSize := 4 }

/-- The left sibling of `c1wNode`, holding three entries. -/
def c1wSib : BPage :=
  { isLeaf := true, pageId := 10, parentPageId := 1,
    entries := [(1, 100), (2, 101), (3, 102)], nextPageId := 11,
    maxSize := 4 }

/-- A four-page tree: internal root 1 over leaves 10, 11 and 12. -/
def c1wTree : BPlusTree :=
  { rootPageId := 1,
    pages :=
      [(1, c1wParent), (10, c1wSib), (11, c1wNode),
       (12, { isLeaf := true, pageId := 12, parentPageId := 1,
              entries := [(40, 105), (41, 106)], nextPageId := INVALID_PAGE_ID,
              maxSize := 4 })],
    nextNewPageId := 13, leafMaxSize := 4, internalMaxSize := 4 }

/-- Witness: the amended rebalance description instantiated at `c1wTree`
with node 11 (index 1 under the root) and its left sibling 10. -/
theorem C1_amended_rebalance_witness :
    ∃ t' ret, CoalesceOrRedistribute (0 + 2) c1wTree 11 = some (t', ret) ∧
      (c1wSib.entries.length ≤ c1wSib.minSize →
        ((1 : Nat) = 0 →
          alookup t'.pages 11 =
            some { c1wNode with entries := c1wNode.entries ++ c1wSib.entries,
                                nextPageId := c1wSib.nextPageId } ∧
          alookup t'.pages ((0 : Nat), (10 : Int)).2 = none ∧ ret = false) ∧
        ((1 : Nat) ≠ 0 →
          alookup t'.pages ((0 : Nat), (10 : Int)).2 =
            some { c1wSib with entries := c1wSib.entries ++ c1wNode.entries,
                               nextPageId := c1wNode.nextPageId } ∧
          alookup t'.pages 11 = some { c1wNode with entries := [] } ∧
          ret = true)) ∧
      (c1wSib.minSize < c1wSib.entries.length →
        ret = false ∧
        ((1 : Nat) = 0 →
          ∃ e es, c1wSib.entries = e :: es ∧
            alookup t'.pages 11 =
              some { c1wNode with entries := c1wNode.entries ++ [e] } ∧
            alookup t'.pages ((0 : Nat), (10 : Int)).2 =
              some { c1wSib with entries := es }) ∧
        ((1 : Nat) ≠ 0 →
          ∃ e, c1wSib.entries.getLast? = some e ∧
            alookup t'.pages 11 =
              some { c1wNode with entries := e :: c1wNode.entries } ∧
            alookup t'.pages ((0 : Nat), (10 : Int)).2 =
              some { c1wSib with entries := c1wSib.entries.dropLast })) :=
  C1_amended_rebalance c1wTree 11 c1wNode c1wParent c1wSib ((0 : Nat), (10 : Int)) 1 0
    (by decide) rfl rfl (by decide) (by decide) rfl (by decide) (by decide)
    (by decide) rfl rfl rfl (by decide) (by decide) (by decide) (by decide)
    (by decide)

theorem keyIndexAux_bounds (entries : List (Nat × Int)) (key : Nat)
    (fuel : Nat) : ∀ start stop : Nat, start ≤ stop →
    start ≤ keyIndexAux entries key fuel start stop ∧
    keyIndexAux entries key fuel start stop ≤ stop := by
  induction fuel with
  | zero => intro start stop h; exact ⟨Nat.le_refl _, h⟩
  | succ n ih =>
      intro start stop h
      simp only [keyIndexAux]
      by_cases hlt : start < stop
      · rw [if_pos hlt]
        by_cases hk : key > (entries.getD (start + (stop - start) / 2) (0, 0)).1
        · rw [if_pos hk]
          have h2 := ih (start + (stop - start) / 2 + 1) stop (by omega)
          omega
        · rw [if_neg hk]
          have h2 := ih start (start + (stop - start) / 2) (by omega)
          omega
      · rw [if_neg hlt]
        exact ⟨Nat.le_refl _, h⟩

theorem BPage.KeyIndex_le (p : BPage) (k : Nat) : p.KeyIndex k ≤ p.entries.length :=
  (keyIndexAux_bounds p.entries k (p.entries.length + 1) 0 p.entries.length
    (Nat.zero_le _)).2

theorem insertAt_length (l : List (Nat × Int)) (i : Nat) (e : Nat × Int)
    (h : i ≤ l.length) : (insertAt l i e).length = l.length + 1 := by
  simp only [insertAt, List.length_append, List.length_take, List.length_cons,
    List.length_drop]
  omega

theorem getD_mem_of_lt {α : Type} {l : List α} {i : Nat} (d : α)
    (h : i < l.length) : l.getD i d ∈ l := by
  induction l generalizing i with
  | nil => simp at h
  | cons a tl ih =>
      cases i with
      | zero => simp [List.getD]
      | succ j =>
          simp only [List.getD_cons_succ]
          exact List.mem_cons_of_mem _ (ih (by simpa using h))

/-- `BPlusTreeLeafPage::Insert` when the key is not yet present: the entry
is placed at the `KeyIndex` position and the size grows by one. -/
theorem BPage.leafInsert_of_not_mem (p : BPage) (k : Nat) (v : Int)
    (h : k ∉ p.entries.map Prod.fst) :
    p.leafInsert k v =
      ({ p with entries := insertAt p.entries (p.KeyIndex k) (k, v) },
       p.entries.length + 1) := by
  have hcond : ¬(p.KeyIndex k < p.entries.length ∧
      (p.entries.getD (p.KeyIndex k) (0, 0)).1 = k) := by
    rintro ⟨h1, h2⟩
    exact h (List.mem_map.mpr ⟨p.entries.getD (p.KeyIndex k) (0, 0),
      getD_mem_of_lt _ h1, h2⟩)
  unfold BPage.leafInsert
  dsimp only []
  rw [if_neg hcond]

/-- C6: inserting a fresh key into a full root leaf (size reaches
`max_size + 1`) splits it: the last `min_size` entries of the overflowed
entry list move to the freshly allocated right sibling, the right
sibling's `next_page_id` is the old next and the left page's
`next_page_id` is the right sibling, and the first key of the right
sibling is promoted into the (new) parent. -/
theorem C6_leaf_split (t : BPlusTree) (pid : PageId) (p : BPage) (k : Nat) (v : Int)
    (hroot : t.rootPageId = pid)
    (hpid_ne : pid ≠ INVALID_PAGE_ID)
    (hp : alookup t.pages pid = some p)
    (hppid : p.pageId = pid)
    (hleaf : p.isLeaf = true)
    (hparent : p.parentPageId = INVALID_PAGE_ID)
    (hfull : p.entries.length = p.maxSize)
    (hnotmem : k ∉ p.entries.map Prod.fst)
    (hfresh1 : pid ≠ t.nextNewPageId)
    (hfresh2 : pid ≠ t.nextNewPageId + 1) :
    ∃ t' left right root,
      t.Insert k v = some (t', true) ∧
      t'.rootPageId = t.nextNewPageId + 1 ∧
      alookup t'.pages pid = some left ∧
      alookup t'.pages t.nextNewPageId = some right ∧
      alookup t'.pages (t.nextNewPageId + 1) = some root ∧
      right.entries = (insertAt p.entries (p.KeyIndex k) (k, v)).drop
        (p.entries.length + 1 - p.minSize) ∧
      left.entries = (insertAt p.entries (p.KeyIndex k) (k, v)).take
        (p.entries.length + 1 - p.minSize) ∧
      right.entries.length = p.minSize ∧
      right.nextPageId = p.nextPageId ∧
      left.nextPageId = t.nextNewPageId ∧
      right.pageId = t.nextNewPageId ∧
      left.parentPageId = t.nextNewPageId + 1 ∧
      right.parentPageId = t.nextNewPageId + 1 ∧
      root.entries =
        [(0, pid), ((right.entries.getD 0 (0, 0)).1, t.nextNewPageId)] := by
  have hidx := BPage.KeyIndex_le p k
  have hlen : (insertAt p.entries (p.KeyIndex k) (k, v)).length =
      p.entries.length + 1 := insertAt_length _ _ _ hidx
  have hins := BPage.leafInsert_of_not_mem p k v hnotmem
  have hfind : t.FindLeafPage k = some pid := by
    unfold BPlusTree.FindLeafPage
    rw [if_neg (by rw [hroot]; exact hpid_ne), hroot]
    simp only [findLeafPageAux]
    rw [hp]
    dsimp only []
    rw [if_pos hleaf]
  have hset1 : alookup (aset t.pages pid
      { p with entries := insertAt p.entries (p.KeyIndex k) (k, v) }) pid =
      some { p with entries := insertAt p.entries (p.KeyIndex k) (k, v) } := by
    rw [alookup_aset, if_pos rfl]
  unfold BPlusTree.Insert
  rw [if_neg (by rw [hroot]; exact hpid_ne)]
  unfold BPlusTree.InsertIntoLeaf
  rw [hfind]
  dsimp only []
  rw [hp]
  dsimp only []
  rw [hins]
  dsimp only []
  rw [if_pos (show p.entries.length + 1 > p.maxSize by omega)]
  have hsplit : splitLeaf
      { t with pages := aset t.pages pid
                          { p with entries := insertAt p.entries (p.KeyIndex k) (k, v) } }
      pid =
      some ({ t with
                pages := aset (aset (aset t.pages pid
                    { p with entries := insertAt p.entries (p.KeyIndex k) (k, v) })
                  pid
                  { p with
                      entries := (insertAt p.entries (p.KeyIndex k) (k, v)).take
                        ((insertAt p.entries (p.KeyIndex k) (k, v)).length - p.minSize),
                      nextPageId := t.nextNewPageId })
                  t.nextNewPageId
                  { isLeaf := true, pageId := t.nextNewPageId,
                    parentPageId := p.parentPageId,
                    entries := (insertAt p.entries (p.KeyIndex k) (k, v)).drop
                      ((insertAt p.entries (p.KeyIndex k) (k, v)).length - p.minSize),
                    nextPageId := p.nextPageId, maxSize := t.leafMaxSize },
                nextNewPageId := t.nextNewPageId + 1 },
            t.nextNewPageId) := by
    unfold splitLeaf
    dsimp only []
    rw [hset1]
    rfl
  rw [hsplit]
  dsimp only []
  have hset2 : alookup (aset (aset (aset t.pages pid
      { p with entries := insertAt p.entries (p.KeyIndex k) (k, v) })
      pid
      { p with
          entries := (insertAt p.entries (p.KeyIndex k) (k, v)).take
            ((insertAt p.entries (p.KeyIndex k) (k, v)).length - p.minSize),
          nextPageId := t.nextNewPageId })
      t.nextNewPageId
      { isLeaf := true, pageId := t.nextNewPageId,
        parentPageId := p.parentPageId,
        entries := (insertAt p.entries (p.KeyIndex k) (k, v)).drop
          ((insertAt p.entries (p.KeyIndex k) (k, v)).length - p.minSize),
        nextPageId := p.nextPageId, maxSize := t.leafMaxSize })
      t.nextNewPageId =
      some { isLeaf := true, pageId := t.nextNewPageId,
             parentPageId := p.parentPageId,
             entries := (insertAt p.entries (p.KeyIndex k) (k, v)).drop
               ((insertAt p.entries (p.KeyIndex k) (k, v)).length - p.minSize),
             nextPageId := p.nextPageId, maxSize := t.leafMaxSize } := by
    rw [alookup_aset, if_pos rfl]
  rw [hset2]
  dsimp only []
  have hset3 : alookup (aset (aset (aset t.pages pid
      { p with entries := insertAt p.entries (p.KeyIndex k) (k, v) })
      pid
      { p with
          entries := (insertAt p.entries (p.KeyIndex k) (k, v)).take
            ((insertAt p.entries (p.KeyIndex k) (k, v)).length - p.minSize),
          nextPageId := t.nextNewPageId })
      t.nextNewPageId
      { isLeaf := true, pageId := t.nextNewPageId,
        parentPageId := p.parentPageId,
        entries := (insertAt p.entries (p.KeyIndex k) (k, v)).drop
          ((insertAt p.entries (p.KeyIndex k) (k, v)).length - p.minSize),
        nextPageId := p.nextPageId, maxSize := t.leafMaxSize })
      pid =
      some { p with
               entries := (insertAt p.entries (p.KeyIndex k) (k, v)).take
                 ((insertAt p.entries (p.KeyIndex k) (k, v)).length - p.minSize),
               nextPageId := t.nextNewPageId } := by
    rw [alookup_aset, if_neg (Ne.symm hfresh1), alookup_aset, if_pos rfl]
  have hfuel : ∀ (n : Nat) (tt : BPlusTree) (a : PageId) (b : Nat) (c : PageId),
      insertIntoParent (n + 2) tt a b c =
      insertIntoParent (n + 1 + 1) tt a b c := fun _ _ _ _ _ => rfl
  rw [hfuel]
  simp only [insertIntoParent]
  rw [hset3, hset2]
  dsimp only []
  rw [if_pos hparent]
  dsimp only []
  have hb : decide (p.entries.length + 1 ≠ p.entries.length) = true := by simp
  rw [hb]
  exact ⟨_, _, _, _, rfl, rfl,
    by rw [alookup_aset, if_neg (Ne.symm hfresh1), alookup_aset, if_pos rfl],
    by rw [alookup_aset, if_pos rfl],
    by rw [alookup_aset, if_neg (show t.nextNewPageId ≠ t.nextNewPageId + 1 by simp),
           alookup_aset, if_neg hfresh2, alookup_aset, if_pos rfl],
    by dsimp only []; rw [hlen],
    by dsimp only []; rw [hlen],
    by dsimp only []
       rw [List.length_drop]
       have hms : p.minSize = (p.maxSize + 1) / 2 := rfl
       omega,
    by rfl, by rfl, by rfl, by rfl, by rfl, by rfl⟩

/-- A full root leaf (two entries at `max_size = 2`). -/
def c6wLeaf : BPage :=
  { isLeaf := true, pageId := 5, parentPageId := INVALID_PAGE_ID,
    entries := [(1, 10), (2, 20)], nextPageId := INVALID_PAGE_ID, maxSize := 2 }

/-- A tree whose root is the single full leaf `c6wLeaf`. -/
def c6wTree : BPlusTree :=
  { rootPageId := 5, pages := [(5, c6wLeaf)], nextNewPageId := 6,
    leafMaxSize := 2, internalMaxSize := 4 }

/-- Witness: the split description instantiated at `c6wTree` with the
fresh key 3. -/
theorem C6_leaf_split_witness :
    ∃ t' left right root,
      c6wTree.Insert 3 30 = some (t', true) ∧
      t'.rootPageId = c6wTree.nextNewPageId + 1 ∧
      alookup t'.pages 5 = some left ∧
      alookup t'.pages c6wTree.nextNewPageId = some right ∧
      alookup t'.pages (c6wTree.nextNewPageId + 1) = some root ∧
      right.entries = (insertAt c6wLeaf.entries (c6wLeaf.KeyIndex 3) (3, 30)).drop
        (c6wLeaf.entries.length + 1 - c6wLeaf.minSize) ∧
      left.entries = (insertAt c6wLeaf.entries (c6wLeaf.KeyIndex 3) (3, 30)).take
        (c6wLeaf.entries.length + 1 - c6wLeaf.minSize) ∧
      right.entries.length = c6wLeaf.minSize ∧
      right.nextPageId = c6wLeaf.nextPageId ∧
      left.nextPageId = c6wTree.nextNewPageId ∧
      right.pageId = c6wTree.nextNewPageId ∧
      left.parentPageId = c6wTree.nextNewPageId + 1 ∧
      right.parentPageId = c6wTree.nextNewPageId + 1 ∧
      root.entries =
        [(0, 5), ((right.entries.getD 0 (0, 0)).1, c6wTree.nextNewPageId)] :=
  C6_leaf_split c6wTree 5 c6wLeaf 3 30 rfl (by decide) (by decide) rfl rfl rfl
    rfl (by decide) (by decide) (by decide)

theorem getD_take (l : List (Nat × Int)) (n j : Nat) (h : j < n) :
    (l.take n).getD j (0, 0) = l.getD j (0, 0) := by
  rw [List.getD_eq_getElem?_getD, List.getD_eq_getElem?_getD, List.getElem?_take,
      if_pos h]

theorem getD_drop (l : List (Nat × Int)) (n j : Nat) :
    (l.drop n).getD j (0, 0) = l.getD (n + j) (0, 0) := by
  rw [List.getD_eq_getElem?_getD, List.getD_eq_getElem?_getD, List.getElem?_drop]

theorem insertAt_getD_lt (l : List (Nat × Int)) (i : Nat) (e : Nat × Int) (j : Nat)
    (hji : j < i) (hi : i ≤ l.length) :
    (insertAt l i e).getD j (0, 0) = l.getD j (0, 0) := by
  have hlt : j < (l.take i).length := by rw [List.length_take]; omega
  rw [insertAt, List.getD_eq_getElem?_getD, List.getElem?_append, if_pos hlt,
      List.getElem?_take, if_pos hji, ← List.getD_eq_getElem?_getD]

theorem insertAt_getD_self (l : List (Nat × Int)) (i : Nat) (e : Nat × Int)
    (hi : i ≤ l.length) :
    (insertAt l i e).getD i (0, 0) = e := by
  have hlen : (l.take i).length = i := by rw [List.length_take]; omega
  rw [insertAt, List.getD_eq_getElem?_getD,
      List.getElem?_append_right (by rw [hlen]), hlen, Nat.sub_self,
      List.getElem?_cons_zero]
  rfl

theorem insertAt_getD_gt (l : List (Nat × Int)) (i : Nat) (e : Nat × Int) (j : Nat)
    (hij : i < j) (hi : i ≤ l.length) :
    (insertAt l i e).getD j (0, 0) = l.getD (j - 1) (0, 0) := by
  have hlen : (l.take i).length = i := by rw [List.length_take]; omega
  rw [insertAt, List.getD_eq_getElem?_getD,
      List.getElem?_append_right (by rw [hlen]; omega), hlen]
  have hj : j - i = (j - i - 1) + 1 := by omega
  rw [hj, List.getElem?_cons_succ, List.getElem?_drop,
      List.getD_eq_getElem?_getD]
  have : i + (j - i - 1) = j - 1 := by omega
  rw [this]

/-- Strict ascending key order, stated positionally. -/
def sortedKeys (l : List (Nat × Int)) : Prop :=
  ∀ i j : Nat, i < j → j < l.length → (l.getD i (0, 0)).1 < (l.getD j (0, 0)).1

theorem sortedKeys_of_pairwise (l : List (Nat × Int))
    (h : l.Pairwise (fun a b => a.1 < b.1)) : sortedKeys l := by
  intro i j hij hj
  have hi : i < l.length := Nat.lt_trans hij hj
  rw [List.getD_eq_getElem _ _ hi, List.getD_eq_getElem _ _ hj]
  exact List.pairwise_iff_getElem.mp h i j hi hj hij

theorem keyIndexAux_sorted_spec (l : List (Nat × Int)) (k : Nat)
    (hs : sortedKeys l) :
    ∀ fuel start stop : Nat, start ≤ stop → stop ≤ l.length →
    stop - start ≤ fuel →
    (∀ j, j < start → (l.getD j (0, 0)).1 < k) →
    (∀ j, stop ≤ j → j < l.length → k ≤ (l.getD j (0, 0)).1) →
    (∀ j, j < keyIndexAux l k fuel start stop → (l.getD j (0, 0)).1 < k) ∧
    (∀ j, keyIndexAux l k fuel start stop ≤ j → j < l.length →
      k ≤ (l.getD j (0, 0)).1) := by
  intro fuel
  induction fuel with
  | zero =>
      intro start stop h1 h2 h3 hlo hhi
      have hz : keyIndexAux l k 0 start stop = start := rfl
      rw [hz]
      exact ⟨fun j hj => hlo j hj, fun j hj hjl => hhi j (by omega) hjl⟩
  | succ n ih =>
      intro start stop h1 h2 h3 hlo hhi
      simp only [keyIndexAux]
      by_cases hlt : start < stop
      · rw [if_pos hlt]
        by_cases hk : k > (l.getD (start + (stop - start) / 2) (0, 0)).1
        · rw [if_pos hk]
          apply ih (start + (stop - start) / 2 + 1) stop (by omega) h2 (by omega)
          · intro j hj
            by_cases hjs : j < start
            · exact hlo j hjs
            · by_cases hjm : j = start + (stop - start) / 2
              · rw [hjm]; exact hk
              · exact Nat.lt_trans
                  (hs j (start + (stop - start) / 2) (by omega) (by omega)) hk
          · exact hhi
        · rw [if_neg hk]
          apply ih start (start + (stop - start) / 2) (by omega) (by omega)
            (by omega) hlo
          intro j hj hjl
          have hkm : k ≤ (l.getD (start + (stop - start) / 2) (0, 0)).1 := by omega
          by_cases hjm : j = start + (stop - start) / 2
          · rw [hjm]; exact hkm
          · exact le_of_lt (Nat.lt_of_le_of_lt hkm
              (hs (start + (stop - start) / 2) j (by omega) hjl))
      · rw [if_neg hlt]
        exact ⟨fun j hj => hlo j hj, fun j hj hjl => hhi j (by omega) hjl⟩

theorem KeyIndex_sorted_spec (p : BPage) (k : Nat) (hs : sortedKeys p.entries) :
    (∀ j, j < p.KeyIndex k → (p.entries.getD j (0, 0)).1 < k) ∧
    (∀ j, p.KeyIndex k ≤ j → j < p.entries.length →
      k ≤ (p.entries.getD j (0, 0)).1) := by
  unfold BPage.KeyIndex
  exact keyIndexAux_sorted_spec p.entries k hs (p.entries.length + 1) 0
    p.entries.length (Nat.zero_le _) (le_refl _) (by omega)
    (fun j hj => absurd hj (Nat.not_lt_zero j))
    (fun j hj hjl => absurd hjl (by omega))

theorem KeyIndex_of_present (p : BPage) (k : Nat) (i : Nat)
    (hs : sortedKeys p.entries) (hi : i < p.entries.length)
    (hk : (p.entries.getD i (0, 0)).1 = k) :
    p.KeyIndex k = i := by
  obtain ⟨h1, h2⟩ := KeyIndex_sorted_spec p k hs
  by_contra hne
  rcases Nat.lt_or_ge (p.KeyIndex k) i with hlt | hge
  · have ha := h2 (p.KeyIndex k) (le_refl _) (by omega)
    have hb := hs (p.KeyIndex k) i hlt hi
    omega
  · have hgt : i < p.KeyIndex k := by omega
    have := h1 i hgt
    omega

theorem BPage.leafLookup_present (p : BPage) (k : Nat) (i : Nat)
    (hs : sortedKeys p.entries) (hi : i < p.entries.length)
    (hk : (p.entries.getD i (0, 0)).1 = k) :
    p.leafLookup k = some (p.entries.getD i (0, 0)).2 := by
  have hki := KeyIndex_of_present p k i hs hi hk
  unfold BPage.leafLookup
  dsimp only []
  rw [hki, if_pos ⟨hi, hk⟩]

theorem BPage.leafInsert_present (p : BPage) (k : Nat) (v : Int) (i : Nat)
    (hs : sortedKeys p.entries) (hi : i < p.entries.length)
    (hk : (p.entries.getD i (0, 0)).1 = k) :
    p.leafInsert k v = (p, p.entries.length) := by
  have hki := KeyIndex_of_present p k i hs hi hk
  unfold BPage.leafInsert
  dsimp only []
  rw [hki, if_pos ⟨hi, hk⟩]

theorem KeyIndex_strict_above (p : BPage) (k : Nat) (hs : sortedKeys p.entries)
    (hnm : k ∉ p.entries.map Prod.fst) :
    ∀ j, p.KeyIndex k ≤ j → j < p.entries.length →
    k < (p.entries.getD j (0, 0)).1 := by
  intro j hj hjl
  have h := (KeyIndex_sorted_spec p k hs).2 j hj hjl
  have hne : (p.entries.getD j (0, 0)).1 ≠ k := fun he =>
    hnm (List.mem_map.mpr ⟨_, getD_mem_of_lt _ hjl, he⟩)
  omega

theorem insertAt_sortedKeys (p : BPage) (k : Nat) (v : Int)
    (hs : sortedKeys p.entries) (hnm : k ∉ p.entries.map Prod.fst) :
    sortedKeys (insertAt p.entries (p.KeyIndex k) (k, v)) := by
  have hidx := BPage.KeyIndex_le p k
  have hlen := insertAt_length p.entries (p.KeyIndex k) (k, v) hidx
  have hlow := (KeyIndex_sorted_spec p k hs).1
  have hhigh := KeyIndex_strict_above p k hs hnm
  intro i j hij hjl
  rw [hlen] at hjl
  rcases Nat.lt_trichotomy j (p.KeyIndex k) with hj | hj | hj
  · rw [insertAt_getD_lt _ _ _ i (by omega) hidx,
        insertAt_getD_lt _ _ _ j hj hidx]
    exact hs i j hij (by omega)
  · rw [hj, insertAt_getD_self _ _ _ hidx,
        insertAt_getD_lt _ _ _ i (by omega) hidx]
    exact hlow i (by omega)
  · rw [insertAt_getD_gt _ _ _ j hj hidx]
    have hj1 : p.KeyIndex k ≤ j - 1 := by omega
    have hj1l : j - 1 < p.entries.length := by omega
    rcases Nat.lt_trichotomy i (p.KeyIndex k) with hi | hi | hi
    · rw [insertAt_getD_lt _ _ _ i hi hidx]
      exact Nat.lt_trans (hlow i hi) (hhigh (j - 1) hj1 hj1l)
    · rw [hi, insertAt_getD_self _ _ _ hidx]
      exact hhigh (j - 1) hj1 hj1l
    · rw [insertAt_getD_gt _ _ _ i hi hidx]
      exact hs (i - 1) (j - 1) (by omega) hj1l

theorem sortedKeys_take (l : List (Nat × Int)) (n : Nat) (hs : sortedKeys l) :
    sortedKeys (l.take n) := by
  intro i j hij hjl
  rw [List.length_take] at hjl
  have hj2 := lt_min_iff.mp hjl
  rw [getD_take _ _ i (by omega), getD_take _ _ j (by omega)]
  exact hs i j hij (by omega)

theorem sortedKeys_drop (l : List (Nat × Int)) (n : Nat) (hs : sortedKeys l) :
    sortedKeys (l.drop n) := by
  intro i j hij hjl
  rw [List.length_drop] at hjl
  rw [getD_drop, getD_drop]
  exact hs (n + i) (n + j) (by omega) (by omega)

theorem aset_length_pos {κ α : Type} [DecidableEq κ] (l : List (κ × α)) (k : κ)
    (v : α) : 1 ≤ (aset l k v).length := by
  cases l with
  | nil => simp [aset]
  | cons e r =>
      obtain ⟨a, b⟩ := e
      by_cases h : a = k <;> simp [aset, h]

theorem alookup_pair_length {κ α : Type} [DecidableEq κ] (L : List (κ × α))
    (a b : κ) (x y : α) (hab : a ≠ b) (ha : alookup L a = some x)
    (hb : alookup L b = some y) : 2 ≤ L.length := by
  cases L with
  | nil => simp [alookup] at ha
  | cons e tl =>
      cases tl with
      | nil =>
          obtain ⟨k0, v0⟩ := e
          exfalso
          by_cases h1 : k0 = a
          · by_cases h2 : k0 = b
            · exact hab (h1.symm.trans h2)
            · simp only [alookup, if_neg h2] at hb
              simp [alookup] at hb
          · simp only [alookup, if_neg h1] at ha
            simp [alookup] at ha
      | cons f tl2 =>
          simp only [List.length_cons]
          omega

theorem internalLookup_pair (p : BPage) (a b : Int) (K k : Nat)
    (h : p.entries = [(0, a), (K, b)]) :
    p.internalLookup k = if k < K then a else b := by
  unfold BPage.internalLookup
  rw [h]
  by_cases hk : k < K
  · rw [if_pos hk]
    simp [internalLookupAux, hk]
  · rw [if_neg hk]
    simp [internalLookupAux, hk]

/-- The entry list a leaf holds right after `BPlusTreeLeafPage::Insert`
places a fresh key. -/
def newEntries (p : BPage) (k : Nat) (v : Int) : List (Nat × Int) :=
  insertAt p.entries (p.KeyIndex k) (k, v)

/-- The number of entries kept by the overflowed page in
`BPlusTreeLeafPage::MoveHalfTo` (`size - GetMinSize()`). -/
def splitKeep (p : BPage) (k : Nat) (v : Int) : Nat :=
  (newEntries p k v).length - p.minSize

/-- The original leaf after an overflowing root-leaf insert runs
`MoveHalfTo` and is reparented under the new root. -/
def splitLeftPage (t : BPlusTree) (p : BPage) (k : Nat) (v : Int) : BPage :=
  { p with entries := (newEntries p k v).take (splitKeep p k v),
           nextPageId := t.nextNewPageId,
           parentPageId := t.nextNewPageId + 1 }

/-- The freshly allocated right sibling after the same split. -/
def splitRightPage (t : BPlusTree) (p : BPage) (k : Nat) (v : Int) : BPage :=
  { isLeaf := true, pageId := t.nextNewPageId,
    parentPageId := t.nextNewPageId + 1,
    entries := (newEntries p k v).drop (splitKeep p k v),
    nextPageId := p.nextPageId, maxSize := t.leafMaxSize }

/-- The new root populated by `InsertIntoParent`/`PopulateNewRoot`. -/
def splitRootPage (t : BPlusTree) (pid : PageId) (p : BPage) (k : Nat)
    (v : Int) : BPage :=
  { isLeaf := false, pageId := t.nextNewPageId + 1,
    parentPageId := INVALID_PAGE_ID,
    entries := [(0, pid),
      ((((newEntries p k v).drop (splitKeep p k v)).getD 0 (0, 0)).1,
       t.nextNewPageId)],
    nextPageId := INVALID_PAGE_ID, maxSize := t.internalMaxSize }

/-- The whole tree produced by `BPlusTree::Insert` when the root leaf
overflows: the in-place insert, the two `Split` page writes, and the
three `InsertIntoParent` page writes. -/
def splitResultTree (t : BPlusTree) (pid : PageId) (p : BPage) (k : Nat)
    (v : Int) : BPlusTree :=
  { rootPageId := t.nextNewPageId + 1,
    pages :=
      aset (aset (aset (aset (aset (aset t.pages
        pid { p with entries := newEntries p k v })
        pid { p with entries := (newEntries p k v).take (splitKeep p k v),
                     nextPageId := t.nextNewPageId })
        t.nextNewPageId
        { isLeaf := true, pageId := t.nextNewPageId,
          parentPageId := p.parentPageId,
          entries := (newEntries p k v).drop (splitKeep p k v),
          nextPageId := p.nextPageId, maxSize := t.leafMaxSize })
        (t.nextNewPageId + 1) (splitRootPage t pid p k v))
        pid (splitLeftPage t p k v))
        t.nextNewPageId (splitRightPage t p k v),
    nextNewPageId := t.nextNewPageId + 1 + 1,
    leafMaxSize := t.leafMaxSize, internalMaxSize := t.internalMaxSize }

/-- The overflow path of `BPlusTree::Insert` on a full root leaf, as one
equation. -/
theorem insert_overflow_root (t : BPlusTree) (pid : PageId) (p : BPage)
    (k : Nat) (v : Int)
    (hroot : t.rootPageId = pid)
    (hpid_ne : pid ≠ INVALID_PAGE_ID)
    (hp : alookup t.pages pid = some p)
    (hleaf : p.isLeaf = true)
    (hparent : p.parentPageId = INVALID_PAGE_ID)
    (hfull : p.entries.length = p.maxSize)
    (hnotmem : k ∉ p.entries.map Prod.fst)
    (hfresh1 : pid ≠ t.nextNewPageId) :
    t.Insert k v = some (splitResultTree t pid p k v, true) := by
  have hidx := BPage.KeyIndex_le p k
  have hins := BPage.leafInsert_of_not_mem p k v hnotmem
  have hfind : t.FindLeafPage k = some pid := by
    unfold BPlusTree.FindLeafPage
    rw [if_neg (by rw [hroot]; exact hpid_ne), hroot]
    simp only [findLeafPageAux]
    rw [hp]
    dsimp only []
    rw [if_pos hleaf]
  have hset1 : alookup (aset t.pages pid
      { p with entries := insertAt p.entries (p.KeyIndex k) (k, v) }) pid =
      some { p with entries := insertAt p.entries (p.KeyIndex k) (k, v) } := by
    rw [alookup_aset, if_pos rfl]
  unfold BPlusTree.Insert
  rw [if_neg (by rw [hroot]; exact hpid_ne)]
  unfold BPlusTree.InsertIntoLeaf
  rw [hfind]
  dsimp only []
  rw [hp]
  dsimp only []
  rw [hins]
  dsimp only []
  rw [if_pos (show p.entries.length + 1 > p.maxSize by omega)]
  have hsplit : splitLeaf
      { t with pages := aset t.pages pid
                          { p with entries := insertAt p.entries (p.KeyIndex k) (k, v) } }
      pid =
      some ({ t with
                pages := aset (aset (aset t.pages pid
                    { p with entries := insertAt p.entries (p.KeyIndex k) (k, v) })
                  pid
                  { p with
                      entries := (insertAt p.entries (p.KeyIndex k) (k, v)).take
                        ((insertAt p.entries (p.KeyIndex k) (k, v)).length - p.minSize),
                      nextPageId := t.nextNewPageId })
                  t.nextNewPageId
                  { isLeaf := true, pageId := t.nextNewPageId,
                    parentPageId := p.parentPageId,
                    entries := (insertAt p.entries (p.KeyIndex k) (k, v)).drop
                      ((insertAt p.entries (p.KeyIndex k) (k, v)).length - p.minSize),
                    nextPageId := p.nextPageId, maxSize := t.leafMaxSize },
                nextNewPageId := t.nextNewPageId + 1 },
            t.nextNewPageId) := by
    unfold splitLeaf
    dsimp only []
    rw [hset1]
    rfl
  rw [hsplit]
  dsimp only []
  have hset2 : alookup (aset (aset (aset t.pages pid
      { p with entries := insertAt p.entries (p.KeyIndex k) (k, v) })
      pid
      { p with
          entries := (insertAt p.entries (p.KeyIndex k) (k, v)).take
            ((insertAt p.entries (p.KeyIndex k) (k, v)).length - p.minSize),
          nextPageId := t.nextNewPageId })
      t.nextNewPageId
      { isLeaf := true, pageId := t.nextNewPageId,
        parentPageId := p.parentPageId,
        entries := (insertAt p.entries (p.KeyIndex k) (k, v)).drop
          ((insertAt p.entries (p.KeyIndex k) (k, v)).length - p.minSize),
        nextPageId := p.nextPageId, maxSize := t.leafMaxSize })
      t.nextNewPageId =
      some { isLeaf := true, pageId := t.nextNewPageId,
             parentPageId := p.parentPageId,
             entries := (insertAt p.entries (p.KeyIndex k) (k, v)).drop
               ((insertAt p.entries (p.KeyIndex k) (k, v)).length - p.minSize),
             nextPageId := p.nextPageId, maxSize := t.leafMaxSize } := by
    rw [alookup_aset, if_pos rfl]
  rw [hset2]
  dsimp only []
  have hset3 : alookup (aset (aset (aset t.pages pid
      { p with entries := insertAt p.entries (p.KeyIndex k) (k, v) })
      pid
      { p with
          entries := (insertAt p.entries (p.KeyIndex k) (k, v)).take
            ((insertAt p.entries (p.KeyIndex k) (k, v)).length - p.minSize),
          nextPageId := t.nextNewPageId })
      t.nextNewPageId
      { isLeaf := true, pageId := t.nextNewPageId,
        parentPageId := p.parentPageId,
        entries := (insertAt p.entries (p.KeyIndex k) (k, v)).drop
          ((insertAt p.entries (p.KeyIndex k) (k, v)).length - p.minSize),
        nextPageId := p.nextPageId, maxSize := t.leafMaxSize })
      pid =
      some { p with
               entries := (insertAt p.entries (p.KeyIndex k) (k, v)).take
                 ((insertAt p.entries (p.KeyIndex k) (k, v)).length - p.minSize),
               nextPageId := t.nextNewPageId } := by
    rw [alookup_aset, if_neg (Ne.symm hfresh1), alookup_aset, if_pos rfl]
  have hfuel : ∀ (n : Nat) (tt : BPlusTree) (a : PageId) (b : Nat) (c : PageId),
      insertIntoParent (n + 2) tt a b c =
      insertIntoParent (n + 1 + 1) tt a b c := fun _ _ _ _ _ => rfl
  rw [hfuel]
  simp only [insertIntoParent]
  rw [hset3, hset2]
  dsimp only []
  rw [if_pos hparent]
  dsimp only []
  have hb : decide (p.entries.length + 1 ≠ p.entries.length) = true := by simp
  rw [hb]
  rfl

/-- Common continuation: on a tree whose leaf lookup lands on a sorted
page that holds `(k, v)` at position `i` and has room, `GetValue`
returns `v`, and a second `Insert` of `k` hits the duplicate check in
`BPlusTreeLeafPage::Insert`, returns `false` and writes the page back
unchanged. -/
theorem getvalue_insert_present (t' : BPlusTree) (cid : PageId) (cpage : BPage)
    (i : Nat) (k : Nat) (v v' : Int)
    (hvalidroot : ¬t'.rootPageId = INVALID_PAGE_ID)
    (hfind : t'.FindLeafPage k = some cid)
    (hac : alookup t'.pages cid = some cpage)
    (hsortc : sortedKeys cpage.entries)
    (hic : i < cpage.entries.length)
    (hkeyc : cpage.entries.getD i (0, 0) = (k, v))
    (hlenc : cpage.entries.length ≤ cpage.maxSize) :
    t'.GetValue k = some v ∧ t'.Insert k v' = some (t', false) := by
  constructor
  · unfold BPlusTree.GetValue
    rw [if_neg hvalidroot, hfind]
    dsimp only []
    rw [hac]
    dsimp only []
    have hl := BPage.leafLookup_present cpage k i hsortc hic (by rw [hkeyc])
    rw [hl, hkeyc]
  · unfold BPlusTree.Insert
    rw [if_neg hvalidroot]
    unfold BPlusTree.InsertIntoLeaf
    rw [hfind]
    dsimp only []
    rw [hac]
    dsimp only []
    rw [BPage.leafInsert_present cpage k v' i hsortc hic (by rw [hkeyc])]
    dsimp only []
    rw [if_neg (show ¬(cpage.entries.length > cpage.maxSize) by omega)]
    have hbf : decide (cpage.entries.length ≠ cpage.entries.length) = false := by
      simp
    rw [hbf, aset_self _ _ _ hac]

/-- C5: on a tree whose root is a single sorted leaf, inserting a fresh
key `k` with value `v` succeeds, `GetValue(k)` then returns `v`, and a
second `Insert(k, v')` returns `false` and leaves the tree unchanged
(so `GetValue(k)` still returns `v`).  Both the in-place and the
overflow/split paths of the insert are covered. -/
theorem C5_insert_get_roundtrip (t : BPlusTree) (pid : PageId) (p : BPage)
    (k : Nat) (v v' : Int)
    (hroot : t.rootPageId = pid)
    (hpid_ne : pid ≠ INVALID_PAGE_ID)
    (hp : alookup t.pages pid = some p)
    (hleaf : p.isLeaf = true)
    (hparent : p.parentPageId = INVALID_PAGE_ID)
    (hsorted : p.entries.Pairwise (fun a b => a.1 < b.1))
    (hsize : p.entries.length ≤ p.maxSize)
    (hnotmem : k ∉ p.entries.map Prod.fst)
    (hmax : 1 ≤ p.maxSize)
    (hms : p.maxSize = t.leafMaxSize)
    (hfresh1 : pid ≠ t.nextNewPageId)
    (hfresh2 : pid ≠ t.nextNewPageId + 1)
    (hvalid : t.nextNewPageId + 1 ≠ INVALID_PAGE_ID) :
    ∃ t', t.Insert k v = some (t', true) ∧
      t'.GetValue k = some v ∧
      t'.Insert k v' = some (t', false) := by
  have hsk : sortedKeys p.entries := sortedKeys_of_pairwise _ hsorted
  have hidx := BPage.KeyIndex_le p k
  have hlen' : (newEntries p k v).length = p.entries.length + 1 :=
    insertAt_length p.entries (p.KeyIndex k) (k, v) hidx
  have hsorted' : sortedKeys (newEntries p k v) :=
    insertAt_sortedKeys p k v hsk hnotmem
  have hself' : (newEntries p k v).getD (p.KeyIndex k) (0, 0) = (k, v) :=
    insertAt_getD_self p.entries (p.KeyIndex k) (k, v) hidx
  have hself1 : ((newEntries p k v).getD (p.KeyIndex k) (0, 0)).1 = k := by
    rw [hself']
  have hms2 : p.minSize = (p.maxSize + 1) / 2 := rfl
  by_cases hfull : p.entries.length = p.maxSize
  · -- overflow: the root leaf splits
    have hcut : splitKeep p k v = p.entries.length + 1 - p.minSize := by
      unfold splitKeep
      rw [hlen']
    have hcutlen : splitKeep p k v < (newEntries p k v).length := by
      rw [hcut, hlen']
      omega
    have hrootT : (splitResultTree t pid p k v).rootPageId =
        t.nextNewPageId + 1 := rfl
    have hvr : ¬(splitResultTree t pid p k v).rootPageId = INVALID_PAGE_ID := by
      rw [hrootT]
      exact hvalid
    have haL : alookup (splitResultTree t pid p k v).pages pid =
        some (splitLeftPage t p k v) := by
      unfold splitResultTree
      dsimp only []
      rw [alookup_aset, if_neg (Ne.symm hfresh1), alookup_aset, if_pos rfl]
    have haR : alookup (splitResultTree t pid p k v).pages t.nextNewPageId =
        some (splitRightPage t p k v) := by
      unfold splitResultTree
      dsimp only []
      rw [alookup_aset, if_pos rfl]
    have haRoot : alookup (splitResultTree t pid p k v).pages
        (t.nextNewPageId + 1) = some (splitRootPage t pid p k v) := by
      unfold splitResultTree
      dsimp only []
      rw [alookup_aset, if_neg (show t.nextNewPageId ≠ t.nextNewPageId + 1 by simp),
          alookup_aset, if_neg hfresh2, alookup_aset, if_pos rfl]
    have hlen2 : 2 ≤ (splitResultTree t pid p k v).pages.length :=
      alookup_pair_length _ pid t.nextNewPageId _ _ hfresh1 haL haR
    obtain ⟨m, hm⟩ : ∃ m, (splitResultTree t pid p k v).pages.length = m + 1 :=
      ⟨(splitResultTree t pid p k v).pages.length - 1, by omega⟩
    have hKeq : ((((newEntries p k v).drop (splitKeep p k v)).getD 0 (0, 0)).1 : Nat) =
        ((newEntries p k v).getD (splitKeep p k v) (0, 0)).1 := by
      rw [getD_drop, Nat.add_zero]
    by_cases hkK : k < (((newEntries p k v).drop (splitKeep p k v)).getD 0 (0, 0)).1
    · -- the incoming key stays in the left page
      have hil : p.KeyIndex k < splitKeep p k v := by
        by_contra hcon
        have hge : splitKeep p k v ≤ p.KeyIndex k := Nat.le_of_not_lt hcon
        rcases Nat.eq_or_lt_of_le hge with he | hlt2
        · rw [hKeq, he, hself1] at hkK
          omega
        · have h2 := hsorted' _ _ hlt2 (by rw [hlen']; omega)
          rw [hself1] at h2
          rw [hKeq] at hkK
          omega
      have hleft_len : (splitLeftPage t p k v).entries.length = splitKeep p k v := by
        show ((newEntries p k v).take (splitKeep p k v)).length = splitKeep p k v
        rw [List.length_take]
        exact min_eq_left (le_of_lt hcutlen)
      have hfind2 : (splitResultTree t pid p k v).FindLeafPage k = some pid := by
        unfold BPlusTree.FindLeafPage
        rw [if_neg hvr, hrootT, hm]
        simp only [findLeafPageAux]
        rw [haRoot]
        dsimp only []
        rw [if_neg (show ¬((splitRootPage t pid p k v).isLeaf = true) by
              rw [show (splitRootPage t pid p k v).isLeaf = false from rfl]
              simp)]
        rw [internalLookup_pair _ pid t.nextNewPageId _ k rfl, if_pos hkK, haL]
        dsimp only []
        rw [if_pos (show (splitLeftPage t p k v).isLeaf = true from hleaf)]
      obtain ⟨hg, hi2⟩ := getvalue_insert_present (splitResultTree t pid p k v)
        pid (splitLeftPage t p k v) (p.KeyIndex k) k v v' hvr hfind2 haL
        (sortedKeys_take _ _ hsorted')
        (by rw [hleft_len]; exact hil)
        (show (splitLeftPage t p k v).entries.getD (p.KeyIndex k) (0, 0) = (k, v) by
          show ((newEntries p k v).take (splitKeep p k v)).getD
            (p.KeyIndex k) (0, 0) = (k, v)
          rw [getD_take _ _ _ hil, hself'])
        (by rw [hleft_len]
            show splitKeep p k v ≤ p.maxSize
            rw [hcut]
            omega)
      exact ⟨splitResultTree t pid p k v,
        insert_overflow_root t pid p k v hroot hpid_ne hp hleaf hparent hfull
          hnotmem hfresh1, hg, hi2⟩
    · -- the incoming key moves to the right sibling
      have hge : splitKeep p k v ≤ p.KeyIndex k := by
        by_contra hcon
        have hil : p.KeyIndex k < splitKeep p k v := Nat.lt_of_not_le hcon
        have h2 := hsorted' (p.KeyIndex k) (splitKeep p k v) hil hcutlen
        rw [hself1] at h2
        rw [hKeq] at hkK
        omega
      have hright_len : (splitRightPage t p k v).entries.length =
          (newEntries p k v).length - splitKeep p k v := by
        show ((newEntries p k v).drop (splitKeep p k v)).length = _
        rw [List.length_drop]
      have hgetR : ((newEntries p k v).drop (splitKeep p k v)).getD
          (p.KeyIndex k - splitKeep p k v) (0, 0) = (k, v) := by
        rw [getD_drop]
        have he : splitKeep p k v + (p.KeyIndex k - splitKeep p k v) =
            p.KeyIndex k := by omega
        rw [he, hself']
      have hfind2 : (splitResultTree t pid p k v).FindLeafPage k =
          some t.nextNewPageId := by
        unfold BPlusTree.FindLeafPage
        rw [if_neg hvr, hrootT, hm]
        simp only [findLeafPageAux]
        rw [haRoot]
        dsimp only []
        rw [if_neg (show ¬((splitRootPage t pid p k v).isLeaf = true) by
              rw [show (splitRootPage t pid p k v).isLeaf = false from rfl]
              simp)]
        rw [internalLookup_pair _ pid t.nextNewPageId _ k rfl, if_neg hkK, haR]
        dsimp only []
        rw [if_pos (show (splitRightPage t p k v).isLeaf = true from rfl)]
      obtain ⟨hg, hi2⟩ := getvalue_insert_present (splitResultTree t pid p k v)
        t.nextNewPageId (splitRightPage t p k v)
        (p.KeyIndex k - splitKeep p k v) k v v' hvr hfind2 haR
        (sortedKeys_drop _ _ hsorted')
        (by rw [hright_len, hlen']; omega)
        hgetR
        (by rw [hright_len, hlen']
            show p.entries.length + 1 - splitKeep p k v ≤ t.leafMaxSize
            rw [← hms, hcut]
            omega)
      exact ⟨splitResultTree t pid p k v,
        insert_overflow_root t pid p k v hroot hpid_ne hp hleaf hparent hfull
          hnotmem hfresh1, hg, hi2⟩
  · -- the leaf has room: in-place insert
    have hlt : p.entries.length < p.maxSize := lt_of_le_of_ne hsize hfull
    have hins := BPage.leafInsert_of_not_mem p k v hnotmem
    have hfind : t.FindLeafPage k = some pid := by
      unfold BPlusTree.FindLeafPage
      rw [if_neg (by rw [hroot]; exact hpid_ne), hroot]
      simp only [findLeafPageAux]
      rw [hp]
      dsimp only []
      rw [if_pos hleaf]
    have haP : alookup (aset t.pages pid { p with entries := newEntries p k v })
        pid = some { p with entries := newEntries p k v } := by
      rw [alookup_aset, if_pos rfl]
    have hpos :=
      aset_length_pos t.pages pid ({ p with entries := newEntries p k v })
    obtain ⟨m, hm⟩ : ∃ m,
        (aset t.pages pid { p with entries := newEntries p k v }).length =
          m + 1 :=
      ⟨(aset t.pages pid { p with entries := newEntries p k v }).length - 1,
        by omega⟩
    have hcomp1 : t.Insert k v =
        some ({ t with pages := aset t.pages pid
                                  { p with entries := newEntries p k v } },
          true) := by
      unfold BPlusTree.Insert
      rw [if_neg (by rw [hroot]; exact hpid_ne)]
      unfold BPlusTree.InsertIntoLeaf
      rw [hfind]
      dsimp only []
      rw [hp]
      dsimp only []
      rw [hins]
      dsimp only []
      rw [if_neg (show ¬(p.entries.length + 1 > p.maxSize) by omega)]
      have hb : decide (p.entries.length + 1 ≠ p.entries.length) = true := by simp
      rw [hb]
      rfl
    have hrt' : ¬({ t with pages := aset t.pages pid
                                      { p with entries := newEntries p k v } } :
          BPlusTree).rootPageId =
        INVALID_PAGE_ID := by
      show ¬t.rootPageId = INVALID_PAGE_ID
      rw [hroot]
      exact hpid_ne
    have hfind2 : ({ t with pages := aset t.pages pid
                                       { p with entries := newEntries p k v } } :
          BPlusTree).FindLeafPage k =
        some pid := by
      unfold BPlusTree.FindLeafPage
      rw [if_neg hrt']
      dsimp only []
      rw [hroot, hm]
      simp only [findLeafPageAux]
      rw [haP]
      dsimp only []
      rw [if_pos (show ({ p with entries := newEntries p k v } : BPage).isLeaf =
            true from hleaf)]
    obtain ⟨hg, hi2⟩ := getvalue_insert_present
      { t with pages := aset t.pages pid { p with entries := newEntries p k v } }
      pid { p with entries := newEntries p k v } (p.KeyIndex k) k v v'
      hrt' hfind2 haP hsorted'
      (show p.KeyIndex k < (newEntries p k v).length by rw [hlen']; omega)
      hself'
      (show (newEntries p k v).length ≤ p.maxSize by rw [hlen']; omega)
    exact ⟨_, hcomp1, hg, hi2⟩

/-- A sorted root leaf with room for more entries. -/
def c5wLeaf : BPage :=
  { isLeaf := true, pageId := 3, parentPageId := INVALID_PAGE_ID,
    entries := [(1, 11), (4, 44)], nextPageId := INVALID_PAGE_ID, maxSize := 4 }

/-- A tree whose root is the single leaf `c5wLeaf`. -/
def c5wTree : BPlusTree :=
  { rootPageId := 3, pages := [(3, c5wLeaf)], nextNewPageId := 9,
    leafMaxSize := 4, internalMaxSize := 4 }

/-- Witness: the insert/get round trip instantiated at `c5wTree` with
key 2 and values 22 then 99. -/
theorem C5_insert_get_roundtrip_witness :
    ∃ t', c5wTree.Insert 2 22 = some (t', true) ∧
      t'.GetValue 2 = some 22 ∧
      t'.Insert 2 99 = some (t', false) :=
  C5_insert_get_roundtrip c5wTree 3 c5wLeaf 2 22 99 rfl (by decide) (by decide)
    rfl rfl (by decide) (by decide) (by decide) (by decide) rfl (by decide)
    (by decide) (by decide)

end cmudb
